import Mathlib

set_option maxRecDepth 8192

/-!
Verification of the unicodeplot rasterization core against its specification.

The development shallowly embeds the two source files of the repository:

* `unicodeplots/canvas/braile.py` — the `BrailleCanvas` class: the bit table,
  `_set_pixel`, `_draw_bresenham_segment`, `line`, `vec_line`, `lines` and
  `render`;
* `unicodeplots/backends/dtypes.py` — the `DataOps.min` / `DataOps.max`
  operations of the numeric-array capability.

Modelling conventions:

* Numeric (float) values are embedded as rationals `ℚ`; machine integers as `ℤ`
  (Python integers are unbounded, so no wrap-around modelling is needed).
* Python `//` and `%` are floor division and floor modulus.  Every divisor in
  the sources is a positive literal (2, 4, 8), and for a positive divisor
  Lean's `Int` division `/` (Euclidean, nonnegative remainder) and `%` agree
  with Python's floor semantics, so the embedding uses `/` and `%` directly.
* Mutation of `self` becomes explicit state passing: each method takes the
  canvas and returns the updated canvas.  `raise` becomes `Except`.
* The Python `set` accumulated by `_draw_bresenham_segment` is embedded as a
  duplicate-free list in first-insertion order; the final `for ... in pixels`
  loop is a fold over that list.
* The base `Canvas` class (grid geometry, `x_to_pixel`/`y_to_pixel`) and the
  external `ColorType`/`Color` capability are not part of the given sources;
  they are modelled from the spec where indicated.
-/

/-- `SUPERSAMPLE = 8` from `braile.py`. -/
def SUPERSAMPLE : ℤ := 8

/-- `BrailleCanvas.x_pixel_per_char` (the constant 2). -/
def x_pixel_per_char : ℤ := 2

/-- `BrailleCanvas.y_pixel_per_char` (the constant 4). -/
def y_pixel_per_char : ℤ := 4

/-- `self.default_char = 0x2800` (the blank Braille pattern). -/
def default_char : ℕ := 0x2800

/-- Modelled from the spec: the external `Color` capability is opaque; color
labels are embedded as abstract natural-number tokens.  `Color.WHITE` is the
default label used by the constructor. -/
def Color.WHITE : ℕ := 0

/-- `self.bit_table` from `BrailleCanvas.__init__`: row `x` (0 or 1) then
column `y` (0..3) gives the Braille dot bit for the in-cell offset. -/
def bit_table : List (List ℕ) :=
  [[0x01, 0x02, 0x04, 0x40],
   [0x08, 0x10, 0x20, 0x80]]

/-- The mutable state and configuration of one `BrailleCanvas` instance.
`grid_cols`, `grid_rows` and the affine coefficients of the logical-to-pixel
transform come from the base `Canvas` class, which is not among the given
sources; they are modelled from the spec as direct parameters (the spec
requires only that the transform is a pure deterministic affine map, so axis
flips and the resolution scale are folded into the coefficients). -/
structure BrailleCanvas where
  grid_cols : ℕ
  grid_rows : ℕ
  x_scale : ℚ
  x_off : ℚ
  y_scale : ℚ
  y_off : ℚ
  active_cells : List (List ℕ)
  active_colors : List (List ℕ)
  deriving DecidableEq, Repr

/-- `BrailleCanvas.__init__`: every cell starts as the blank pattern
`default_char`, every color as the default color. -/
def BrailleCanvas.init (cols rows : ℕ) (xs xo ys yo : ℚ) : BrailleCanvas :=
  { grid_cols := cols
    grid_rows := rows
    x_scale := xs
    x_off := xo
    y_scale := ys
    y_off := yo
    active_cells := List.replicate rows (List.replicate cols default_char)
    active_colors := List.replicate rows (List.replicate cols Color.WHITE) }

/-- Modelled from the spec: `Canvas.x_to_pixel`, the pure affine logical-to-
pixel transform of the base class (not in the given sources). -/
def BrailleCanvas.x_to_pixel (c : BrailleCanvas) (x : ℚ) : ℚ :=
  c.x_scale * x + c.x_off

/-- Modelled from the spec: `Canvas.y_to_pixel`, the pure affine logical-to-
pixel transform of the base class (not in the given sources). -/
def BrailleCanvas.y_to_pixel (c : BrailleCanvas) (y : ℚ) : ℚ :=
  c.y_scale * y + c.y_off

/-- Replace the element at one position of a list, leaving every other
position (and the length) unchanged; out-of-range positions are untouched.
Embeds Python in-place assignment `l[i] = ...` / `l[i] |= ...`. -/
def listModify {α : Type} (f : α → α) : ℕ → List α → List α
  | _, [] => []
  | 0, a :: l => f a :: l
  | n + 1, a :: l => a :: listModify f n l

/-- Apply `f` to entry `(r, k)` of a row-major grid. -/
def gridModify (g : List (List ℕ)) (r k : ℕ) (f : ℕ → ℕ) : List (List ℕ) :=
  listModify (fun row => listModify f k row) r g

/-- Read entry `(r, k)` of a row-major grid (0 out of range). -/
def gridGet (g : List (List ℕ)) (r k : ℕ) : ℕ :=
  (g.getD r []).getD k 0

/-- Cell mask/codepoint at `(row, col)`: `self.active_cells[row][col]`. -/
def BrailleCanvas.cellAt (c : BrailleCanvas) (r k : ℕ) : ℕ :=
  gridGet c.active_cells r k

/-- Color label at `(row, col)`: `self.active_colors[row][col]`. -/
def BrailleCanvas.colorAt (c : BrailleCanvas) (r k : ℕ) : ℕ :=
  gridGet c.active_colors r k

/-- The `self.bit_table[x_in][y_in]` lookup inside the `try` block of
`_set_pixel`.  `none` is the `except IndexError` branch.  (A Python index
below `-len` raises `IndexError`; indices `-1`, `-2` would wrap, but the
lookup is only reached with nonnegative `emod` results — claim C7 — so the
embedding maps every negative index to the defensive branch.) -/
def bitAt (x y : ℤ) : Option ℕ :=
  if 0 ≤ x ∧ 0 ≤ y then
    (bit_table.getD x.toNat []).get? y.toNat
  else none

/-- `BrailleCanvas._set_pixel`: clip to the grid, look up the dot bit for the
in-cell offset, OR it into the cell and overwrite the cell color. -/
def BrailleCanvas._set_pixel (c : BrailleCanvas) (px py : ℤ) (color : ℕ) :
    BrailleCanvas :=
  let cx := px / x_pixel_per_char
  let cy := py / y_pixel_per_char
  if 0 ≤ cx ∧ cx < (c.grid_cols : ℤ) ∧ 0 ≤ cy ∧ cy < (c.grid_rows : ℤ) then
    match bitAt (px % x_pixel_per_char) (py % y_pixel_per_char) with
    | some bit =>
        { c with
          active_cells := gridModify c.active_cells cy.toNat cx.toNat (· ||| bit)
          active_colors := gridModify c.active_colors cy.toNat cx.toNat (fun _ => color) }
    | none => c
  else c

/-- Insert into the deduplicating `pixels` set of `_draw_bresenham_segment`
(embedded as a duplicate-free list in first-insertion order). -/
def setInsert (p : ℤ × ℤ) (l : List (ℤ × ℤ)) : List (ℤ × ℤ) :=
  if p ∈ l then l else l ++ [p]

/-- The `while True` loop of `_draw_bresenham_segment`.  The state is the
current point and error term; `fuel` bounds the number of iterations (the
loop itself is unbounded in the source; claim C10 shows the fuel
`dx + dy + 1` supplied by `bresPixels` always suffices, i.e. the source loop
terminates).  Returns the accumulated pixel set at the `break`, or `none` if
the fuel ran out. -/
def bresLoop (dx dy sx sy px2 py2 : ℤ) :
    ℕ → ℤ → ℤ → ℤ → List (ℤ × ℤ) → Option (List (ℤ × ℤ))
  | 0, _, _, _, _ => none
  | fuel + 1, px, py, err, acc =>
    let acc' := setInsert (px / SUPERSAMPLE, py / SUPERSAMPLE) acc
    if px = px2 ∧ py = py2 then some acc'
    else
      let e2 := 2 * err
      let err1 := if e2 > -dy then err - dy else err
      let px' := if e2 > -dy then px + sx else px
      let err2 := if e2 < dx then err1 + dx else err1
      let py' := if e2 < dx then py + sy else py
      bresLoop dx dy sx sy px2 py2 fuel px' py' err2 acc'

/-- The pixel set computed by `_draw_bresenham_segment` before the drawing
loop: Bresenham from `(px1, py1)` to `(px2, py2)`, collapsing every visited
point by `// SUPERSAMPLE`. -/
def bresPixels (px1 py1 px2 py2 : ℤ) : Option (List (ℤ × ℤ)) :=
  let dx := |px2 - px1|
  let dy := |py2 - py1|
  let sx : ℤ := if px1 < px2 then 1 else -1
  let sy : ℤ := if py1 < py2 then 1 else -1
  bresLoop dx dy sx sy px2 py2 (dx + dy + 1).toNat px1 py1 (dx - dy) []

/-- `BrailleCanvas._draw_bresenham_segment`: walk the supersampled Bresenham
line, then set every collapsed pixel.  The `none` fallback never occurs
(claim C10). -/
def BrailleCanvas._draw_bresenham_segment (c : BrailleCanvas)
    (px1 py1 px2 py2 : ℤ) (color : ℕ) : BrailleCanvas :=
  match bresPixels px1 py1 px2 py2 with
  | some pixels => pixels.foldl (fun acc p => acc._set_pixel p.1 p.2 color) c
  | none => c

/-- Python `round` / `np.round`: round to nearest, ties to even. -/
def rnd (q : ℚ) : ℤ :=
  if q - ⌊q⌋ < 1 / 2 then ⌊q⌋
  else if 1 / 2 < q - ⌊q⌋ then ⌊q⌋ + 1
  else if ⌊q⌋ % 2 = 0 then ⌊q⌋ else ⌊q⌋ + 1

/-- Python `int(...)` on a float: truncation toward zero. -/
def truncQ (q : ℚ) : ℤ :=
  if 0 ≤ q then ⌊q⌋ else ⌈q⌉

/-- `DataOps.round` on a numeric array (`np.round`): elementwise round
half-to-even, result still float-valued. -/
def DataOps.roundArr (l : List ℚ) : List ℚ :=
  l.map fun q => ((rnd q : ℤ) : ℚ)

/-- `DataOps.astype_int` on a numeric array: elementwise truncation to int. -/
def DataOps.astype_intArr (l : List ℚ) : List ℤ :=
  l.map truncQ

/-- `BrailleCanvas.line`: supersample both endpoints, round to integers and
rasterize one segment. -/
def BrailleCanvas.line (c : BrailleCanvas) (x1 y1 x2 y2 : ℚ) (color : ℕ) :
    BrailleCanvas :=
  let px1 := rnd (c.x_to_pixel x1 * (SUPERSAMPLE : ℚ))
  let py1 := rnd (c.y_to_pixel y1 * (SUPERSAMPLE : ℚ))
  let px2 := rnd (c.x_to_pixel x2 * (SUPERSAMPLE : ℚ))
  let py2 := rnd (c.y_to_pixel y2 * (SUPERSAMPLE : ℚ))
  c._draw_bresenham_segment px1 py1 px2 py2 color

/-- `BrailleCanvas.vec_line`: map, scale, round and cast all four coordinate
sequences elementwise (the numeric-array capability), then loop over
`range num_segments` drawing each segment from the precomputed integer
arrays.  Indexing `arr[i]` is embedded as `getD i 0`; `lines` only calls this
with four sequences of equal length, so the default is never read. -/
def BrailleCanvas.vec_line (c : BrailleCanvas) (x1a y1a x2a y2a : List ℚ)
    (color : ℕ) : BrailleCanvas :=
  let num_segments := x1a.length
  let px1i := DataOps.astype_intArr (DataOps.roundArr
    ((x1a.map c.x_to_pixel).map (· * (SUPERSAMPLE : ℚ))))
  let py1i := DataOps.astype_intArr (DataOps.roundArr
    ((y1a.map c.y_to_pixel).map (· * (SUPERSAMPLE : ℚ))))
  let px2i := DataOps.astype_intArr (DataOps.roundArr
    ((x2a.map c.x_to_pixel).map (· * (SUPERSAMPLE : ℚ))))
  let py2i := DataOps.astype_intArr (DataOps.roundArr
    ((y2a.map c.y_to_pixel).map (· * (SUPERSAMPLE : ℚ))))
  (List.range num_segments).foldl
    (fun acc i => acc._draw_bresenham_segment
      (px1i.getD i 0) (py1i.getD i 0) (px2i.getD i 0) (py2i.getD i 0) color)
    c

/-- `BrailleCanvas.lines`: check the four sequence lengths, then either the
vectorized path (`vec_line`, taken when the input is an ndarray-like type:
embedded as the flag `isArr`) or the scalar path (one `line` per tuple of
`zip`).  The `raise ValueError` becomes `Except.error` (message embedded
without the quote characters of the original).  The diagnostic `print` on the
vectorized path is I/O and is not modelled. -/
def BrailleCanvas.lines (c : BrailleCanvas) (isArr : Bool)
    (x_starts y_starts x_ends y_ends : List ℚ) (color : ℕ) :
    Except String BrailleCanvas :=
  let num_segments := x_starts.length
  if ¬(y_starts.length = num_segments ∧ x_ends.length = num_segments ∧
      y_ends.length = num_segments) then
    Except.error "Input sequences for lines must all have the same length"
  else if isArr then
    Except.ok (c.vec_line x_starts y_starts x_ends y_ends color)
  else
    Except.ok ((x_starts.zip (y_starts.zip (x_ends.zip y_ends))).foldl
      (fun acc t => acc.line t.1 t.2.1 t.2.2.1 t.2.2.2 color) c)

/-- `BrailleCanvas.render`: for each row, concatenate the color-decorated
glyph of every column with no separator, then join the rows with a newline.
The external `ColorType(...).apply` contract is the parameter `capApply`. -/
def BrailleCanvas.render (capApply : ℕ → String → String) (c : BrailleCanvas) :
    String :=
  String.intercalate "\n" ((List.range c.grid_rows).map fun row =>
    String.join ((List.range c.grid_cols).map fun col =>
      capApply (c.colorAt row col) (String.singleton (Char.ofNat (c.cellAt row col)))))

/-- The render composition exactly as the spec words it: each cell's glyph is
the single character whose code point is the blank base `0x2800` plus the
cell's mask bits (its low eight bits, written here as `% 256`), decorated by
the color capability; columns concatenated with no separator, rows joined by
one newline. -/
def BrailleCanvas.spec_render (capApply : ℕ → String → String)
    (c : BrailleCanvas) : String :=
  String.intercalate "\n" ((List.range c.grid_rows).map fun row =>
    String.join ((List.range c.grid_cols).map fun col =>
      capApply (c.colorAt row col)
        (String.singleton (Char.ofNat (0x2800 + c.cellAt row col % 256)))))

/-- The spec's scalar reference for batch drawing: N sequential `line` calls
in input order on the same canvas. -/
def BrailleCanvas.line_calls :
    BrailleCanvas → List ℚ → List ℚ → List ℚ → List ℚ → ℕ → BrailleCanvas
  | c, x1 :: xs, y1 :: ys, x2 :: xe, y2 :: ye, color =>
      (c.line x1 y1 x2 y2 color).line_calls xs ys xe ye color
  | c, _, _, _, _, _ => c

/-- Reachability invariant of the cell grid: every in-range cell holds the
blank base with at most the eight mask bits added, i.e. a value in
`[0x2800, 0x2900)`. -/
def BrailleCanvas.maskInv (c : BrailleCanvas) : Prop :=
  ∀ r < c.grid_rows, ∀ k < c.grid_cols,
    0x2800 ≤ c.cellAt r k ∧ c.cellAt r k < 0x2900

instance (c : BrailleCanvas) : Decidable c.maskInv := by
  unfold BrailleCanvas.maskInv; infer_instance

/-- A sequence of `_set_pixel` calls (pixel coordinates and a color each),
applied in order. -/
def applyCalls (l : List (ℤ × ℤ × ℕ)) (c : BrailleCanvas) : BrailleCanvas :=
  l.foldl (fun acc t => acc._set_pixel t.1 t.2.1 t.2.2) c

/-! ## The `DataOps` numeric capability (`backends/dtypes.py`) -/

/-- The kinds of Python errors raised by `DataOps`. -/
inductive PyErr where
  | valueError (msg : String)
  | typeError (msg : String)
  deriving DecidableEq, Repr

/-- The argument shapes `DataOps.min`/`DataOps.max` distinguish: a numpy
ndarray of numbers, a plain numeric sequence, or a string (a sequence that is
explicitly excluded by the `not isinstance(data, str)` guard).  Elements are
numeric values (`ℚ`). -/
inductive PyData where
  | ndarray (l : List ℚ)
  | seq (l : List ℚ)
  | str (s : List Char)
  deriving DecidableEq, Repr

/-- Python `len(data)` for the shapes of `PyData`. -/
def pyLen : PyData → ℕ
  | .ndarray l => l.length
  | .seq l => l.length
  | .str s => s.length

/-- `builtins.min` / `np.min` on a nonempty numeric list (never called on an
empty one: the length-0 check comes first). -/
def listMin (l : List ℚ) : ℚ :=
  l.foldl min (l.headD 0)

/-- `builtins.max` / `np.max` on a nonempty numeric list. -/
def listMax (l : List ℚ) : ℚ :=
  l.foldl max (l.headD 0)

/-- `DataOps.min`: empty-length check first (`ValueError`), then dispatch on
the input shape; a non-array non-sequence shape raises `TypeError`. -/
def DataOps.min (data : PyData) : Except PyErr ℚ :=
  if pyLen data = 0 then
    Except.error (PyErr.valueError "min() arg is an empty sequence")
  else
    match data with
    | .ndarray l => Except.ok (listMin l)
    | .seq l => Except.ok (listMin l)
    | .str _ => Except.error (PyErr.typeError "Unsupported data type for DataOps.get_min")

/-- `DataOps.max`: same structure as `DataOps.min`. -/
def DataOps.max (data : PyData) : Except PyErr ℚ :=
  if pyLen data = 0 then
    Except.error (PyErr.valueError "max() arg is an empty sequence")
  else
    match data with
    | .ndarray l => Except.ok (listMax l)
    | .seq l => Except.ok (listMax l)
    | .str _ => Except.error (PyErr.typeError "Unsupported data type for DataOps.get_min")

/-! ## List and grid lemmas -/

theorem listModify_getElem? {α : Type} (f : α → α) :
    ∀ (n m : ℕ) (l : List α),
      (listModify f n l)[m]? = if m = n then l[m]?.map f else l[m]?
  | n, m, [] => by cases n <;> cases m <;> simp [listModify]
  | 0, 0, a :: l => by simp [listModify]
  | 0, m + 1, a :: l => by simp [listModify]
  | n + 1, 0, a :: l => by simp [listModify]
  | n + 1, m + 1, a :: l => by
      simpa [listModify] using listModify_getElem? f n m l

theorem listModify_comm {α : Type} (f g : α → α) (h : ∀ a, g (f a) = f (g a))
    (n m : ℕ) (l : List α) :
    listModify g m (listModify f n l) = listModify f n (listModify g m l) := by
  apply List.ext_getElem?
  intro i
  by_cases hin : i = n <;> by_cases him : i = m
  · subst hin; subst him
    simp only [listModify_getElem?, if_pos rfl, Option.map_map]
    cases l[i]? <;> simp [h]
  · subst hin
    simp [listModify_getElem?, him]
  · subst him
    simp [listModify_getElem?, hin]
  · simp [listModify_getElem?, hin, him]

theorem gridGet_eq_get? (g : List (List ℕ)) (r k : ℕ) :
    gridGet g r k = ((g[r]?.getD [])[k]?).getD 0 := by
  simp [gridGet, List.getD_eq_getElem?_getD]

theorem gridGet_gridModify_cases (g : List (List ℕ)) (r k : ℕ) (f : ℕ → ℕ)
    (r' k' : ℕ) :
    gridGet (gridModify g r k f) r' k' = gridGet g r' k' ∨
    gridGet (gridModify g r k f) r' k' = f (gridGet g r' k') := by
  rw [gridGet_eq_get?, gridGet_eq_get?]
  unfold gridModify
  rw [listModify_getElem?]
  by_cases hr : r' = r
  · subst hr
    rw [if_pos rfl]
    cases hrow : g[r']? with
    | none => simp
    | some row =>
      simp only [Option.map_some', Option.getD_some]
      rw [listModify_getElem?]
      by_cases hk : k' = k
      · subst hk
        rw [if_pos rfl]
        cases hv : row[k']? with
        | none => simp
        | some v => simp
      · rw [if_neg hk]; simp
  · rw [if_neg hr]; simp

theorem gridGet_gridModify_ne (g : List (List ℕ)) (r k : ℕ) (f : ℕ → ℕ)
    (r' k' : ℕ) (h : r' ≠ r ∨ k' ≠ k) :
    gridGet (gridModify g r k f) r' k' = gridGet g r' k' := by
  rw [gridGet_eq_get?, gridGet_eq_get?]
  unfold gridModify
  rw [listModify_getElem?]
  by_cases hr : r' = r
  · subst hr
    rcases h with h | h
    · exact absurd rfl h
    · rw [if_pos rfl]
      cases hrow : g[r']? with
      | none => simp
      | some row =>
        simp only [Option.map_some', Option.getD_some]
        rw [listModify_getElem?, if_neg h]
  · rw [if_neg hr]

theorem gridGet_gridModify_self (g : List (List ℕ)) (r k : ℕ) (f : ℕ → ℕ)
    (hr : r < g.length) (hk : k < (g.getD r []).length) :
    gridGet (gridModify g r k f) r k = f (gridGet g r k) := by
  rw [gridGet_eq_get?, gridGet_eq_get?]
  unfold gridModify
  rw [listModify_getElem?, if_pos rfl]
  rw [List.getD_eq_getElem?_getD] at hk
  cases hrow : g[r]? with
  | none => exact absurd hrow (by simp [List.getElem?_eq_none_iff]; omega)
  | some row =>
    simp only [Option.map_some', Option.getD_some]
    rw [listModify_getElem?, if_pos rfl]
    rw [hrow] at hk
    simp only [Option.getD_some] at hk
    cases hv : row[k]? with
    | none => exact absurd hv (by simp [List.getElem?_eq_none_iff]; omega)
    | some v => simp

theorem gridModify_lor_comm (g : List (List ℕ)) (r1 k1 : ℕ) (b1 : ℕ)
    (r2 k2 : ℕ) (b2 : ℕ) :
    gridModify (gridModify g r1 k1 (· ||| b1)) r2 k2 (· ||| b2) =
    gridModify (gridModify g r2 k2 (· ||| b2)) r1 k1 (· ||| b1) := by
  unfold gridModify
  apply listModify_comm
  intro row
  apply listModify_comm
  intro a
  rw [Nat.lor_assoc, Nat.lor_assoc, Nat.lor_comm b1 b2]

theorem getD_replicate {α : Type} (a d : α) :
    ∀ (n i : ℕ), (List.replicate n a).getD i d = if i < n then a else d
  | 0, i => by simp [List.replicate]
  | n + 1, 0 => by simp [List.replicate]
  | n + 1, i + 1 => by
      simp only [List.replicate, List.getD_cons_succ]
      rw [getD_replicate a d n i]
      simp only [Nat.add_lt_add_iff_right]

/-! ## Structure of `_set_pixel` and pixel folds -/

/-- The effect of one `_set_pixel` call on the cell grid alone (the color grid
is updated independently); used to factor proofs about masks. -/
def cellsStep (cols rows : ℕ) (px py : ℤ) (g : List (List ℕ)) : List (List ℕ) :=
  if 0 ≤ px / x_pixel_per_char ∧ px / x_pixel_per_char < (cols : ℤ) ∧
      0 ≤ py / y_pixel_per_char ∧ py / y_pixel_per_char < (rows : ℤ) then
    match bitAt (px % x_pixel_per_char) (py % y_pixel_per_char) with
    | some bit =>
        gridModify g (py / y_pixel_per_char).toNat (px / x_pixel_per_char).toNat (· ||| bit)
    | none => g
  else g

/-- Let-free unfolding of `_set_pixel`, convenient for case analysis. -/
theorem _set_pixel_eq (c : BrailleCanvas) (px py : ℤ) (color : ℕ) :
    c._set_pixel px py color =
    if 0 ≤ px / x_pixel_per_char ∧ px / x_pixel_per_char < (c.grid_cols : ℤ) ∧
        0 ≤ py / y_pixel_per_char ∧ py / y_pixel_per_char < (c.grid_rows : ℤ) then
      match bitAt (px % x_pixel_per_char) (py % y_pixel_per_char) with
      | some bit =>
          { c with
            active_cells :=
              gridModify c.active_cells (py / y_pixel_per_char).toNat
                (px / x_pixel_per_char).toNat (· ||| bit)
            active_colors :=
              gridModify c.active_colors (py / y_pixel_per_char).toNat
                (px / x_pixel_per_char).toNat (fun _ => color) }
      | none => c
    else c := rfl

/-- The configuration (grid dimensions and transform coefficients) of a
canvas, which no drawing operation changes. -/
def BrailleCanvas.config (c : BrailleCanvas) : ℕ × ℕ × ℚ × ℚ × ℚ × ℚ :=
  (c.grid_cols, c.grid_rows, c.x_scale, c.x_off, c.y_scale, c.y_off)

theorem _set_pixel_config (c : BrailleCanvas) (px py : ℤ) (color : ℕ) :
    (c._set_pixel px py color).config = c.config := by
  rw [_set_pixel_eq]
  split
  · split <;> rfl
  · rfl

theorem _set_pixel_cells (c : BrailleCanvas) (px py : ℤ) (color : ℕ) :
    (c._set_pixel px py color).active_cells =
    cellsStep c.grid_cols c.grid_rows px py c.active_cells := by
  rw [_set_pixel_eq]
  unfold cellsStep
  split
  · split <;> rfl
  · rfl

/-- The cell `(row, col)` and bit that one `_set_pixel` call would OR in, or
`none` when the call is clipped or the table lookup fails. -/
def pixelTarget (cols rows : ℕ) (px py : ℤ) : Option (ℕ × ℕ × ℕ) :=
  if 0 ≤ px / x_pixel_per_char ∧ px / x_pixel_per_char < (cols : ℤ) ∧
      0 ≤ py / y_pixel_per_char ∧ py / y_pixel_per_char < (rows : ℤ) then
    (bitAt (px % x_pixel_per_char) (py % y_pixel_per_char)).map
      (fun bit => ((py / y_pixel_per_char).toNat, (px / x_pixel_per_char).toNat, bit))
  else none

theorem cellsStep_eq_target (cols rows : ℕ) (px py : ℤ) (g : List (List ℕ)) :
    cellsStep cols rows px py g =
    match pixelTarget cols rows px py with
    | some (r, k, bit) => gridModify g r k (· ||| bit)
    | none => g := by
  unfold cellsStep pixelTarget
  split
  · cases bitAt (px % x_pixel_per_char) (py % y_pixel_per_char) <;> rfl
  · rfl

theorem cellsStep_comm (cols rows : ℕ) (a b p q : ℤ) (g : List (List ℕ)) :
    cellsStep cols rows a b (cellsStep cols rows p q g) =
    cellsStep cols rows p q (cellsStep cols rows a b g) := by
  rw [cellsStep_eq_target, cellsStep_eq_target, cellsStep_eq_target,
    cellsStep_eq_target]
  cases pixelTarget cols rows a b with
  | none => rfl
  | some t1 =>
    cases pixelTarget cols rows p q with
    | none => rfl
    | some t2 =>
      obtain ⟨r1, k1, b1⟩ := t1
      obtain ⟨r2, k2, b2⟩ := t2
      exact gridModify_lor_comm g r2 k2 b2 r1 k1 b1

theorem cellsStep_testBit_mono (cols rows : ℕ) (px py : ℤ)
    (g : List (List ℕ)) (r k i : ℕ)
    (h : (gridGet g r k).testBit i = true) :
    (gridGet (cellsStep cols rows px py g) r k).testBit i = true := by
  unfold cellsStep
  split
  · split
    · rename_i bit _
      rcases gridGet_gridModify_cases g (py / y_pixel_per_char).toNat
          (px / x_pixel_per_char).toNat (· ||| bit) r k with hc | hc <;> rw [hc]
      · exact h
      · simp only [Nat.testBit_lor, h, Bool.true_or]
    · exact h
  · exact h

theorem foldl_perm_comm {α β : Type} (f : β → α → β)
    (h : ∀ b a1 a2, f (f b a1) a2 = f (f b a2) a1) :
    ∀ {l1 l2 : List α}, l1.Perm l2 → ∀ b, l1.foldl f b = l2.foldl f b := by
  intro l1 l2 p
  induction p with
  | nil => intro b; rfl
  | cons x _ ih => intro b; simpa using ih (f b x)
  | swap x y l => intro b; simp [List.foldl_cons, h]
  | trans _ _ ih1 ih2 => intro b; rw [ih1, ih2]

theorem config_grid_cols {c1 c2 : BrailleCanvas} (h : c1.config = c2.config) :
    c1.grid_cols = c2.grid_cols := congrArg Prod.fst h

theorem config_grid_rows {c1 c2 : BrailleCanvas} (h : c1.config = c2.config) :
    c1.grid_rows = c2.grid_rows := congrArg (fun t => t.2.1) h

theorem config_x_scale {c1 c2 : BrailleCanvas} (h : c1.config = c2.config) :
    c1.x_scale = c2.x_scale := congrArg (fun t => t.2.2.1) h

theorem config_x_off {c1 c2 : BrailleCanvas} (h : c1.config = c2.config) :
    c1.x_off = c2.x_off := congrArg (fun t => t.2.2.2.1) h

theorem config_y_scale {c1 c2 : BrailleCanvas} (h : c1.config = c2.config) :
    c1.y_scale = c2.y_scale := congrArg (fun t => t.2.2.2.2.1) h

theorem config_y_off {c1 c2 : BrailleCanvas} (h : c1.config = c2.config) :
    c1.y_off = c2.y_off := congrArg (fun t => t.2.2.2.2.2) h

theorem applyCalls_cells (l : List (ℤ × ℤ × ℕ)) :
    ∀ c : BrailleCanvas,
      (applyCalls l c).active_cells =
        l.foldl (fun g t => cellsStep c.grid_cols c.grid_rows t.1 t.2.1 g)
          c.active_cells ∧
      (applyCalls l c).config = c.config := by
  induction l with
  | nil => intro c; exact ⟨rfl, rfl⟩
  | cons t l ih =>
    intro c
    have hstep := _set_pixel_config c t.1 t.2.1 t.2.2
    have hcells := _set_pixel_cells c t.1 t.2.1 t.2.2
    have h := ih (c._set_pixel t.1 t.2.1 t.2.2)
    constructor
    · rw [applyCalls, List.foldl_cons, ← applyCalls, h.1, hcells,
        config_grid_cols hstep, config_grid_rows hstep, List.foldl_cons]
    · rw [applyCalls, List.foldl_cons, ← applyCalls, h.2, hstep]

theorem applyCalls_perm {l1 l2 : List (ℤ × ℤ × ℕ)} (h : l1.Perm l2)
    (c : BrailleCanvas) :
    (applyCalls l1 c).active_cells = (applyCalls l2 c).active_cells := by
  rw [(applyCalls_cells l1 c).1, (applyCalls_cells l2 c).1]
  exact foldl_perm_comm _
    (fun g t1 t2 => cellsStep_comm c.grid_cols c.grid_rows t2.1 t2.2.1 t1.1 t1.2.1 g)
    h c.active_cells

theorem _set_pixel_testBit_mono (c : BrailleCanvas) (px py : ℤ) (color : ℕ)
    (r k i : ℕ) (h : (c.cellAt r k).testBit i = true) :
    ((c._set_pixel px py color).cellAt r k).testBit i = true := by
  have := _set_pixel_cells c px py color
  unfold BrailleCanvas.cellAt at h ⊢
  rw [this]
  exact cellsStep_testBit_mono c.grid_cols c.grid_rows px py c.active_cells r k i h

theorem foldl_set_pixel_config (color : ℕ) :
    ∀ (l : List (ℤ × ℤ)) (c : BrailleCanvas),
      (l.foldl (fun acc p => acc._set_pixel p.1 p.2 color) c).config = c.config
  | [], _ => rfl
  | p :: l, c => by
    rw [List.foldl_cons, foldl_set_pixel_config color l, _set_pixel_config]

theorem foldl_set_pixel_testBit_mono (color : ℕ) :
    ∀ (l : List (ℤ × ℤ)) (c : BrailleCanvas) (r k i : ℕ),
      (c.cellAt r k).testBit i = true →
      ((l.foldl (fun acc p => acc._set_pixel p.1 p.2 color) c).cellAt r k).testBit i
        = true
  | [], _, _, _, _, h => h
  | p :: l, c, r, k, i, h => by
    rw [List.foldl_cons]
    exact foldl_set_pixel_testBit_mono color l _ r k i
      (_set_pixel_testBit_mono c p.1 p.2 color r k i h)

theorem _draw_config (c : BrailleCanvas) (px1 py1 px2 py2 : ℤ) (color : ℕ) :
    (c._draw_bresenham_segment px1 py1 px2 py2 color).config = c.config := by
  unfold BrailleCanvas._draw_bresenham_segment
  cases bresPixels px1 py1 px2 py2 with
  | none => rfl
  | some pixels => exact foldl_set_pixel_config color pixels c

theorem _draw_testBit_mono (c : BrailleCanvas) (px1 py1 px2 py2 : ℤ)
    (color : ℕ) (r k i : ℕ) (h : (c.cellAt r k).testBit i = true) :
    ((c._draw_bresenham_segment px1 py1 px2 py2 color).cellAt r k).testBit i
      = true := by
  unfold BrailleCanvas._draw_bresenham_segment
  cases bresPixels px1 py1 px2 py2 with
  | none => exact h
  | some pixels => exact foldl_set_pixel_testBit_mono color pixels c r k i h

theorem line_config (c : BrailleCanvas) (x1 y1 x2 y2 : ℚ) (color : ℕ) :
    (c.line x1 y1 x2 y2 color).config = c.config :=
  _draw_config c _ _ _ _ color

theorem line_testBit_mono (c : BrailleCanvas) (x1 y1 x2 y2 : ℚ) (color : ℕ)
    (r k i : ℕ) (h : (c.cellAt r k).testBit i = true) :
    ((c.line x1 y1 x2 y2 color).cellAt r k).testBit i = true :=
  _draw_testBit_mono c _ _ _ _ color r k i h

theorem foldl_draw_testBit_mono (color : ℕ)
    (f1 f2 f3 f4 : ℕ → ℤ) :
    ∀ (idxs : List ℕ) (c : BrailleCanvas) (r k i : ℕ),
      (c.cellAt r k).testBit i = true →
      ((idxs.foldl (fun acc j =>
          acc._draw_bresenham_segment (f1 j) (f2 j) (f3 j) (f4 j) color) c).cellAt
        r k).testBit i = true
  | [], _, _, _, _, h => h
  | j :: idxs, c, r, k, i, h => by
    rw [List.foldl_cons]
    exact foldl_draw_testBit_mono color f1 f2 f3 f4 idxs _ r k i
      (_draw_testBit_mono c (f1 j) (f2 j) (f3 j) (f4 j) color r k i h)

theorem vec_line_testBit_mono (c : BrailleCanvas) (x1a y1a x2a y2a : List ℚ)
    (color : ℕ) (r k i : ℕ) (h : (c.cellAt r k).testBit i = true) :
    ((c.vec_line x1a y1a x2a y2a color).cellAt r k).testBit i = true := by
  unfold BrailleCanvas.vec_line
  exact foldl_draw_testBit_mono color _ _ _ _ (List.range x1a.length) c r k i h

theorem foldl_line_testBit_mono (color : ℕ) :
    ∀ (l : List (ℚ × ℚ × ℚ × ℚ)) (c : BrailleCanvas) (r k i : ℕ),
      (c.cellAt r k).testBit i = true →
      ((l.foldl (fun acc t => acc.line t.1 t.2.1 t.2.2.1 t.2.2.2 color) c).cellAt
        r k).testBit i = true
  | [], _, _, _, _, h => h
  | t :: l, c, r, k, i, h => by
    rw [List.foldl_cons]
    exact foldl_line_testBit_mono color l _ r k i
      (line_testBit_mono c t.1 t.2.1 t.2.2.1 t.2.2.2 color r k i h)

/-- Let-free unfolding of `lines`, convenient for case analysis. -/
theorem lines_eq (c : BrailleCanvas) (isArr : Bool)
    (xs ys xe ye : List ℚ) (color : ℕ) :
    c.lines isArr xs ys xe ye color =
    if ¬(ys.length = xs.length ∧ xe.length = xs.length ∧
        ye.length = xs.length) then
      Except.error "Input sequences for lines must all have the same length"
    else if isArr then
      Except.ok (c.vec_line xs ys xe ye color)
    else
      Except.ok ((xs.zip (ys.zip (xe.zip ye))).foldl
        (fun acc t => acc.line t.1 t.2.1 t.2.2.1 t.2.2.2 color) c) := rfl

theorem lines_testBit_mono (c : BrailleCanvas) (isArr : Bool)
    (xs ys xe ye : List ℚ) (color : ℕ) (c' : BrailleCanvas)
    (hok : c.lines isArr xs ys xe ye color = Except.ok c')
    (r k i : ℕ) (h : (c.cellAt r k).testBit i = true) :
    (c'.cellAt r k).testBit i = true := by
  rw [lines_eq] at hok
  by_cases hlen : ys.length = xs.length ∧ xe.length = xs.length ∧
      ye.length = xs.length
  · rw [if_neg (not_not_intro hlen)] at hok
    cases isArr
    · rw [if_neg (by simp)] at hok
      rw [← Except.ok.inj hok]
      exact foldl_line_testBit_mono color _ c r k i h
    · rw [if_pos rfl] at hok
      rw [← Except.ok.inj hok]
      exact vec_line_testBit_mono c xs ys xe ye color r k i h
  · rw [if_pos hlen] at hok
    cases hok

/-- One-step let-free unfolding of the Bresenham loop body. -/
theorem bresLoop_succ (dx dy sx sy px2 py2 : ℤ) (fuel : ℕ)
    (px py err : ℤ) (acc : List (ℤ × ℤ)) :
    bresLoop dx dy sx sy px2 py2 (fuel + 1) px py err acc =
    if px = px2 ∧ py = py2 then
      some (setInsert (px / SUPERSAMPLE, py / SUPERSAMPLE) acc)
    else
      bresLoop dx dy sx sy px2 py2 fuel
        (if 2 * err > -dy then px + sx else px)
        (if 2 * err < dx then py + sy else py)
        (if 2 * err < dx then (if 2 * err > -dy then err - dy else err) + dx
         else (if 2 * err > -dy then err - dy else err))
        (setInsert (px / SUPERSAMPLE, py / SUPERSAMPLE) acc) := rfl

theorem bresLoop_reaches (dx dy : ℤ) (hdx : 0 ≤ dx) (hdy : 0 ≤ dy)
    (sx sy : ℤ) (hsx : sx = 1 ∨ sx = -1) (hsy : sy = 1 ∨ sy = -1)
    (px2 py2 : ℤ) :
    ∀ (fuel : ℕ) (u v px py err : ℤ) (acc : List (ℤ × ℤ)),
      0 ≤ u → u ≤ dx → 0 ≤ v → v ≤ dy →
      px = px2 - u * sx → py = py2 - v * sy →
      err = dx - dy + u * dy - v * dx →
      (u + v).toNat < fuel →
      ∃ L, bresLoop dx dy sx sy px2 py2 fuel px py err acc = some L := by
  intro fuel
  induction fuel with
  | zero =>
    intro u v px py err acc hu0 hud hv0 hvd hpx hpy herr hf
    omega
  | succ fuel ih =>
    intro u v px py err acc hu0 hud hv0 hvd hpx hpy herr hf
    rw [bresLoop_succ]
    by_cases hbreak : px = px2 ∧ py = py2
    · rw [if_pos hbreak]
      exact ⟨_, rfl⟩
    · rw [if_neg hbreak]
      have hxiff : px = px2 ↔ u = 0 := by
        rcases hsx with h | h <;> subst h <;> constructor <;> intro hh <;> omega
      have hyiff : py = py2 ↔ v = 0 := by
        rcases hsy with h | h <;> subst h <;> constructor <;> intro hh <;> omega
      have hnz : ¬(u = 0 ∧ v = 0) := by
        intro ⟨h1, h2⟩
        exact hbreak ⟨hxiff.mpr h1, hyiff.mpr h2⟩
      -- if a step is taken on an axis, that axis has distance remaining
      have hxneed : 2 * err > -dy → 1 ≤ u := by
        intro hxs
        by_contra hu1
        have hu : u = 0 := by omega
        subst hu
        have hv1 : 1 ≤ v := by
          rcases hnz with h
          omega
        have hvdx : dx ≤ v * dx := by nlinarith
        nlinarith
      have hyneed : 2 * err < dx → 1 ≤ v := by
        intro hys
        by_contra hv1
        have hv : v = 0 := by omega
        subst hv
        have hu1 : 1 ≤ u := by omega
        have hudy : dy ≤ u * dy := by nlinarith
        nlinarith
      have hstep : 2 * err > -dy ∨ 2 * err < dx := by
        by_contra hno
        push_neg at hno
        obtain ⟨h1, h2⟩ := hno
        have hdx0 : dx = 0 := by linarith
        have hdy0 : dy = 0 := by linarith
        exact hnz ⟨by omega, by omega⟩
      by_cases hx : 2 * err > -dy <;> by_cases hy : 2 * err < dx
      · -- both axes step
        rw [if_pos hx, if_pos hy, if_pos hy, if_pos hx]
        have hu1 := hxneed hx
        have hv1 := hyneed hy
        refine ih (u - 1) (v - 1) _ _ _ _ ?_ ?_ ?_ ?_ ?_ ?_ ?_ ?_
        · omega
        · omega
        · omega
        · omega
        · rcases hsx with h | h <;> subst h <;> omega
        · rcases hsy with h | h <;> subst h <;> omega
        · rw [herr]; ring
        · omega
      · -- x axis steps only
        rw [if_pos hx, if_neg hy, if_neg hy, if_pos hx]
        have hu1 := hxneed hx
        refine ih (u - 1) v _ _ _ _ ?_ ?_ ?_ ?_ ?_ ?_ ?_ ?_
        · omega
        · omega
        · omega
        · omega
        · rcases hsx with h | h <;> subst h <;> omega
        · exact hpy
        · rw [herr]; ring
        · omega
      · -- y axis steps only
        rw [if_neg hx, if_pos hy, if_pos hy, if_neg hx]
        have hv1 := hyneed hy
        refine ih u (v - 1) _ _ _ _ ?_ ?_ ?_ ?_ ?_ ?_ ?_ ?_
        · omega
        · omega
        · omega
        · omega
        · exact hpx
        · rcases hsy with h | h <;> subst h <;> omega
        · rw [herr]; ring
        · omega
      · rcases hstep with h | h
        · exact absurd h hx
        · exact absurd h hy

/-- The fuel `dx + dy + 1` chosen by `bresPixels` always suffices: the walk
reaches the end point and the loop returns through its `break`. -/
theorem bresPixels_some (px1 py1 px2 py2 : ℤ) :
    ∃ L, bresPixels px1 py1 px2 py2 = some L := by
  unfold bresPixels
  have hdx : (0:ℤ) ≤ |px2 - px1| := abs_nonneg _
  have hdy : (0:ℤ) ≤ |py2 - py1| := abs_nonneg _
  refine bresLoop_reaches |px2 - px1| |py2 - py1| hdx hdy
    (if px1 < px2 then 1 else -1) (if py1 < py2 then 1 else -1)
    (by split <;> simp) (by split <;> simp) px2 py2
    ((|px2 - px1| + |py2 - py1| + 1).toNat)
    |px2 - px1| |py2 - py1| px1 py1 (|px2 - px1| - |py2 - py1|) []
    hdx le_rfl hdy le_rfl ?_ ?_ (by ring) (by omega)
  · rcases abs_cases (px2 - px1) with ⟨h1, h2⟩ | ⟨h1, h2⟩ <;> split <;> omega
  · rcases abs_cases (py2 - py1) with ⟨h1, h2⟩ | ⟨h1, h2⟩ <;> split <;> omega

/-! ## Structure of the walk's pixel set -/

theorem mem_setInsert (q p : ℤ × ℤ) (l : List (ℤ × ℤ)) :
    q ∈ setInsert p l ↔ q ∈ l ∨ q = p := by
  unfold setInsert
  split
  · rename_i hmem
    constructor
    · exact fun h => Or.inl h
    · rintro (h | rfl)
      · exact h
      · exact hmem
  · simp

theorem nodup_setInsert (p : ℤ × ℤ) (l : List (ℤ × ℤ)) (h : l.Nodup) :
    (setInsert p l).Nodup := by
  unfold setInsert
  split
  · exact h
  · rename_i hmem
    simpa [List.nodup_append] using ⟨h, hmem⟩

theorem bresLoop_nodup (dx dy sx sy px2 py2 : ℤ) :
    ∀ (fuel : ℕ) (px py err : ℤ) (acc : List (ℤ × ℤ)) (L : List (ℤ × ℤ)),
      acc.Nodup → bresLoop dx dy sx sy px2 py2 fuel px py err acc = some L →
      L.Nodup := by
  intro fuel
  induction fuel with
  | zero => intro px py err acc L _ h; cases h
  | succ fuel ih =>
    intro px py err acc L hacc h
    rw [bresLoop_succ] at h
    split at h
    · cases h
      exact nodup_setInsert _ _ hacc
    · exact ih _ _ _ _ L (nodup_setInsert _ _ hacc) h

/-- A duplicate-free list with the same members as another duplicate-free
list is a permutation of it. -/
theorem perm_of_nodup_mem_iff {l1 l2 : List (ℤ × ℤ)} (h1 : l1.Nodup)
    (h2 : l2.Nodup) (h : ∀ p, p ∈ l1 ↔ p ∈ l2) : l1.Perm l2 := by
  exact (List.perm_ext_iff_of_nodup h1 h2).mpr h

/-- Characterization of the walk for a vertical segment (`dx = 0`): the
error term stays `-dy`, only the y axis ever steps, and the visited pixel
set is exactly the collapsed pixels of the y range walked. -/
theorem bresLoop_vert (dy : ℤ) (hdy : 0 ≤ dy) (sx sy : ℤ)
    (hsy : sy = 1 ∨ sy = -1) (X py2 : ℤ) :
    ∀ (fuel : ℕ) (v py : ℤ) (acc : List (ℤ × ℤ)),
      0 ≤ v → v ≤ dy → py = py2 - v * sy → v.toNat < fuel →
      ∃ L, bresLoop 0 dy sx sy X py2 fuel X py (-dy) acc = some L ∧
        ∀ p, p ∈ L ↔ p ∈ acc ∨
          ∃ w, 0 ≤ w ∧ w ≤ v ∧ p = (X / SUPERSAMPLE, (py2 - w * sy) / SUPERSAMPLE) := by
  intro fuel
  induction fuel with
  | zero => intro v py acc hv0 hvd hpy hf; omega
  | succ fuel ih =>
    intro v py acc hv0 hvd hpy hf
    rw [bresLoop_succ]
    by_cases hv : v = 0
    · subst hv
      have hpy2 : py = py2 := by rcases hsy with h | h <;> subst h <;> omega
      rw [if_pos ⟨rfl, hpy2⟩]
      refine ⟨_, rfl, fun p => ?_⟩
      rw [mem_setInsert]
      constructor
      · rintro (h | rfl)
        · exact Or.inl h
        · exact Or.inr ⟨0, le_rfl, le_rfl, by rw [hpy2]; ring_nf⟩
      · rintro (h | ⟨w, hw0, hw1, rfl⟩)
        · exact Or.inl h
        · have hw : w = 0 := le_antisymm hw1 hw0
          subst hw
          rw [hpy2]
          right
          ring_nf
    · have hpyne : ¬py = py2 := by
        rcases hsy with h | h <;> subst h <;> omega
      rw [if_neg (fun hb => hpyne hb.2)]
      have hdy1 : 1 ≤ dy := by omega
      have hxc : ¬(2 * -dy > -dy) := by omega
      have hyc : 2 * -dy < 0 := by omega
      rw [if_neg hxc, if_pos hyc, if_pos hyc, if_neg hxc]
      have harith : -dy + 0 = -dy := by ring
      rw [harith]
      obtain ⟨L, hL, hmem⟩ := ih (v - 1) (py + sy) (setInsert (X / SUPERSAMPLE, py / SUPERSAMPLE) acc)
        (by omega) (by omega) (by rcases hsy with h | h <;> subst h <;> omega) (by omega)
      refine ⟨L, hL, fun p => ?_⟩
      rw [hmem p, mem_setInsert]
      constructor
      · rintro ((h | rfl) | ⟨w, hw0, hw1, rfl⟩)
        · exact Or.inl h
        · exact Or.inr ⟨v, hv0, le_rfl, by rw [hpy]⟩
        · exact Or.inr ⟨w, hw0, by omega, rfl⟩
      · rintro (h | ⟨w, hw0, hw1, rfl⟩)
        · exact Or.inl (Or.inl h)
        · by_cases hwv : w = v
          · subst hwv
            exact Or.inl (Or.inr (by rw [hpy]))
          · exact Or.inr ⟨w, hw0, by omega, rfl⟩

/-- Characterization of the walk for a horizontal segment (`dy = 0`): the
error term stays `dx`, only the x axis ever steps, and the visited pixel set
is exactly the collapsed pixels of the x range walked. -/
theorem bresLoop_horiz (dx : ℤ) (hdx : 0 ≤ dx) (sx sy : ℤ)
    (hsx : sx = 1 ∨ sx = -1) (px2 Y : ℤ) :
    ∀ (fuel : ℕ) (u px : ℤ) (acc : List (ℤ × ℤ)),
      0 ≤ u → u ≤ dx → px = px2 - u * sx → u.toNat < fuel →
      ∃ L, bresLoop dx 0 sx sy px2 Y fuel px Y dx acc = some L ∧
        ∀ p, p ∈ L ↔ p ∈ acc ∨
          ∃ w, 0 ≤ w ∧ w ≤ u ∧ p = ((px2 - w * sx) / SUPERSAMPLE, Y / SUPERSAMPLE) := by
  intro fuel
  induction fuel with
  | zero => intro u px acc hu0 hud hpx hf; omega
  | succ fuel ih =>
    intro u px acc hu0 hud hpx hf
    rw [bresLoop_succ]
    by_cases hu : u = 0
    · subst hu
      have hpx2 : px = px2 := by rcases hsx with h | h <;> subst h <;> omega
      rw [if_pos ⟨hpx2, rfl⟩]
      refine ⟨_, rfl, fun p => ?_⟩
      rw [mem_setInsert]
      constructor
      · rintro (h | rfl)
        · exact Or.inl h
        · exact Or.inr ⟨0, le_rfl, le_rfl, by rw [hpx2]; ring_nf⟩
      · rintro (h | ⟨w, hw0, hw1, rfl⟩)
        · exact Or.inl h
        · have hw : w = 0 := le_antisymm hw1 hw0
          subst hw
          rw [hpx2]
          right
          ring_nf
    · have hpxne : ¬px = px2 := by
        rcases hsx with h | h <;> subst h <;> omega
      rw [if_neg (fun hb => hpxne hb.1)]
      have hdx1 : 1 ≤ dx := by omega
      have hxc : 2 * dx > -0 := by omega
      have hyc : ¬(2 * dx < dx) := by omega
      rw [if_pos hxc, if_neg hyc, if_neg hyc, if_pos hxc]
      have harith : dx - 0 = dx := by ring
      rw [harith]
      obtain ⟨L, hL, hmem⟩ := ih (u - 1) (px + sx)
        (setInsert (px / SUPERSAMPLE, Y / SUPERSAMPLE) acc)
        (by omega) (by omega) (by rcases hsx with h | h <;> subst h <;> omega) (by omega)
      refine ⟨L, hL, fun p => ?_⟩
      rw [hmem p, mem_setInsert]
      constructor
      · rintro ((h | rfl) | ⟨w, hw0, hw1, rfl⟩)
        · exact Or.inl h
        · exact Or.inr ⟨u, hu0, le_rfl, by rw [hpx]⟩
        · exact Or.inr ⟨w, hw0, by omega, rfl⟩
      · rintro (h | ⟨w, hw0, hw1, rfl⟩)
        · exact Or.inl (Or.inl h)
        · by_cases hwu : w = u
          · subst hwu
            exact Or.inl (Or.inr (by rw [hpx]))
          · exact Or.inr ⟨w, hw0, by omega, rfl⟩

theorem bresPixels_nodup (px1 py1 px2 py2 : ℤ) (L : List (ℤ × ℤ))
    (h : bresPixels px1 py1 px2 py2 = some L) : L.Nodup := by
  unfold bresPixels at h
  exact bresLoop_nodup _ _ _ _ _ _ _ _ _ _ _ L List.nodup_nil h

/-- The pixel set of a vertical segment is the collapsed pixels of the y
interval, independent of walk direction. -/
theorem bresPixels_vert (X py1 py2 : ℤ) :
    ∃ L, bresPixels X py1 X py2 = some L ∧
      ∀ p, p ∈ L ↔ ∃ y, min py1 py2 ≤ y ∧ y ≤ max py1 py2 ∧
        p = (X / SUPERSAMPLE, y / SUPERSAMPLE) := by
  unfold bresPixels
  simp only [sub_self, abs_zero]
  by_cases hlt : py1 < py2
  · rw [if_pos hlt]
    have habs : |py2 - py1| = py2 - py1 := abs_of_nonneg (by omega)
    rw [habs]
    have hz : (0 : ℤ) - (py2 - py1) = -(py2 - py1) := by ring
    rw [hz]
    obtain ⟨L, hL, hmem⟩ := bresLoop_vert (py2 - py1) (by omega)
      (if X < X then 1 else -1) 1 (Or.inl rfl) X py2
      ((0 + (py2 - py1) + 1).toNat) (py2 - py1) py1 [] (by omega) le_rfl
      (by omega) (by omega)
    refine ⟨L, hL, fun p => ?_⟩
    rw [hmem p]
    simp only [List.not_mem_nil, false_or]
    constructor
    · rintro ⟨w, hw0, hw1, rfl⟩
      exact ⟨py2 - w * 1, by omega, by omega, rfl⟩
    · rintro ⟨y, hy0, hy1, rfl⟩
      refine ⟨py2 - y, by omega, by omega, ?_⟩
      have : py2 - (py2 - y) * 1 = y := by ring
      rw [this]
  · rw [if_neg hlt]
    have habs : |py2 - py1| = py1 - py2 := by
      rw [abs_of_nonpos (by omega)]; ring
    rw [habs]
    have hz : (0 : ℤ) - (py1 - py2) = -(py1 - py2) := by ring
    rw [hz]
    obtain ⟨L, hL, hmem⟩ := bresLoop_vert (py1 - py2) (by omega)
      (if X < X then 1 else -1) (-1) (Or.inr rfl) X py2
      ((0 + (py1 - py2) + 1).toNat) (py1 - py2) py1 [] (by omega) le_rfl
      (by omega) (by omega)
    refine ⟨L, hL, fun p => ?_⟩
    rw [hmem p]
    simp only [List.not_mem_nil, false_or]
    constructor
    · rintro ⟨w, hw0, hw1, rfl⟩
      exact ⟨py2 - w * -1, by omega, by omega, rfl⟩
    · rintro ⟨y, hy0, hy1, rfl⟩
      refine ⟨y - py2, by omega, by omega, ?_⟩
      have : py2 - (y - py2) * -1 = y := by ring
      rw [this]

/-- The pixel set of a horizontal segment is the collapsed pixels of the x
interval, independent of walk direction. -/
theorem bresPixels_horiz (px1 px2 Y : ℤ) :
    ∃ L, bresPixels px1 Y px2 Y = some L ∧
      ∀ p, p ∈ L ↔ ∃ x, min px1 px2 ≤ x ∧ x ≤ max px1 px2 ∧
        p = (x / SUPERSAMPLE, Y / SUPERSAMPLE) := by
  unfold bresPixels
  simp only [sub_self, abs_zero]
  by_cases hlt : px1 < px2
  · rw [if_pos hlt]
    have habs : |px2 - px1| = px2 - px1 := abs_of_nonneg (by omega)
    rw [habs]
    have hz : px2 - px1 - 0 = px2 - px1 := by ring
    rw [hz]
    obtain ⟨L, hL, hmem⟩ := bresLoop_horiz (px2 - px1) (by omega) 1
      (if Y < Y then 1 else -1) (Or.inl rfl) px2 Y
      ((px2 - px1 + 0 + 1).toNat) (px2 - px1) px1 [] (by omega) le_rfl
      (by omega) (by omega)
    refine ⟨L, hL, fun p => ?_⟩
    rw [hmem p]
    simp only [List.not_mem_nil, false_or]
    constructor
    · rintro ⟨w, hw0, hw1, rfl⟩
      exact ⟨px2 - w * 1, by omega, by omega, rfl⟩
    · rintro ⟨x, hx0, hx1, rfl⟩
      refine ⟨px2 - x, by omega, by omega, ?_⟩
      have : px2 - (px2 - x) * 1 = x := by ring
      rw [this]
  · rw [if_neg hlt]
    have habs : |px2 - px1| = px1 - px2 := by
      rw [abs_of_nonpos (by omega)]; ring
    rw [habs]
    have hz : px1 - px2 - 0 = px1 - px2 := by ring
    rw [hz]
    obtain ⟨L, hL, hmem⟩ := bresLoop_horiz (px1 - px2) (by omega) (-1)
      (if Y < Y then 1 else -1) (Or.inr rfl) px2 Y
      ((px1 - px2 + 0 + 1).toNat) (px1 - px2) px1 [] (by omega) le_rfl
      (by omega) (by omega)
    refine ⟨L, hL, fun p => ?_⟩
    rw [hmem p]
    simp only [List.not_mem_nil, false_or]
    constructor
    · rintro ⟨w, hw0, hw1, rfl⟩
      exact ⟨px2 - w * -1, by omega, by omega, rfl⟩
    · rintro ⟨x, hx0, hx1, rfl⟩
      refine ⟨x - px2, by omega, by omega, ?_⟩
      have : px2 - (x - px2) * -1 = x := by ring
      rw [this]

theorem draw_fold_eq_applyCalls (L : List (ℤ × ℤ)) (color : ℕ)
    (c : BrailleCanvas) :
    L.foldl (fun acc p => acc._set_pixel p.1 p.2 color) c =
    applyCalls (L.map (fun p => (p.1, p.2, color))) c := by
  rw [applyCalls, List.foldl_map]

/-- Axis-aligned segments rasterize to the same cells in either direction. -/
theorem _draw_axis_symm (c : BrailleCanvas) (px1 py1 px2 py2 : ℤ)
    (color : ℕ) (h : px1 = px2 ∨ py1 = py2) :
    (c._draw_bresenham_segment px1 py1 px2 py2 color).active_cells =
    (c._draw_bresenham_segment px2 py2 px1 py1 color).active_cells := by
  have key : ∀ L1 L2, bresPixels px1 py1 px2 py2 = some L1 →
      bresPixels px2 py2 px1 py1 = some L2 →
      (∀ p, p ∈ L1 ↔ p ∈ L2) →
      (c._draw_bresenham_segment px1 py1 px2 py2 color).active_cells =
      (c._draw_bresenham_segment px2 py2 px1 py1 color).active_cells := by
    intro L1 L2 h1 h2 hmem
    unfold BrailleCanvas._draw_bresenham_segment
    rw [h1, h2]
    show (L1.foldl (fun acc p => acc._set_pixel p.1 p.2 color) c).active_cells =
      (L2.foldl (fun acc p => acc._set_pixel p.1 p.2 color) c).active_cells
    rw [draw_fold_eq_applyCalls, draw_fold_eq_applyCalls]
    exact applyCalls_perm
      (List.Perm.map _ (perm_of_nodup_mem_iff (bresPixels_nodup _ _ _ _ _ h1)
        (bresPixels_nodup _ _ _ _ _ h2) hmem)) c
  rcases h with rfl | rfl
  · obtain ⟨L1, h1, hm1⟩ := bresPixels_vert px1 py1 py2
    obtain ⟨L2, h2, hm2⟩ := bresPixels_vert px1 py2 py1
    refine key L1 L2 h1 h2 fun p => ?_
    rw [hm1 p, hm2 p, min_comm, max_comm]
  · obtain ⟨L1, h1, hm1⟩ := bresPixels_horiz px1 px2 py1
    obtain ⟨L2, h2, hm2⟩ := bresPixels_horiz px2 px1 py1
    refine key L1 L2 h1 h2 fun p => ?_
    rw [hm1 p, hm2 p, min_comm, max_comm]

/-! ## Equivalence of the vectorized and scalar drawing paths -/

theorem rnd_intCast (n : ℤ) : rnd ((n : ℤ) : ℚ) = n := by
  unfold rnd
  rw [Int.floor_intCast]
  rw [if_pos (by rw [sub_self]; norm_num)]

theorem truncQ_intCast (n : ℤ) : truncQ ((n : ℤ) : ℚ) = n := by
  unfold truncQ
  split
  · exact Int.floor_intCast n
  · exact Int.ceil_intCast n

theorem astype_round (l : List ℚ) :
    DataOps.astype_intArr (DataOps.roundArr l) = l.map rnd := by
  unfold DataOps.astype_intArr DataOps.roundArr
  rw [List.map_map]
  exact List.map_congr_left fun q _ => truncQ_intCast (rnd q)

theorem x_to_pixel_congr {c1 c2 : BrailleCanvas} (h : c1.config = c2.config)
    (q : ℚ) : c1.x_to_pixel q = c2.x_to_pixel q := by
  unfold BrailleCanvas.x_to_pixel
  rw [config_x_scale h, config_x_off h]

theorem y_to_pixel_congr {c1 c2 : BrailleCanvas} (h : c1.config = c2.config)
    (q : ℚ) : c1.y_to_pixel q = c2.y_to_pixel q := by
  unfold BrailleCanvas.y_to_pixel
  rw [config_y_scale h, config_y_off h]

theorem rangeFold_draw_eq (color : ℕ) :
    ∀ (l1 l2 l3 l4 : List ℤ) (c : BrailleCanvas),
      l2.length = l1.length → l3.length = l1.length → l4.length = l1.length →
      (List.range l1.length).foldl
        (fun acc i => acc._draw_bresenham_segment
          (l1.getD i 0) (l2.getD i 0) (l3.getD i 0) (l4.getD i 0) color) c =
      (l1.zip (l2.zip (l3.zip l4))).foldl
        (fun acc t => acc._draw_bresenham_segment t.1 t.2.1 t.2.2.1 t.2.2.2 color) c
  | [], _, _, _, _, _, _, _ => rfl
  | a :: l1, [], _, _, _, h2, _, _ => absurd h2 (by simp)
  | a :: l1, b :: l2, [], _, _, _, h3, _ => absurd h3 (by simp)
  | a :: l1, b :: l2, d :: l3, [], _, _, _, h4 => absurd h4 (by simp)
  | a :: l1, b :: l2, d :: l3, e :: l4, c, h2, h3, h4 => by
      simp only [List.length_cons] at h2 h3 h4
      rw [List.length_cons, List.range_succ_eq_map, List.foldl_cons,
        List.foldl_map]
      simp only [List.getD_cons_succ, List.getD_cons_zero]
      rw [List.zip_cons_cons, List.zip_cons_cons, List.zip_cons_cons,
        List.foldl_cons]
      exact rangeFold_draw_eq color l1 l2 l3 l4 _ (by omega) (by omega) (by omega)

theorem mapped_zip4_fold_eq_line_calls (color : ℕ) (c0 : BrailleCanvas) :
    ∀ (xs ys xe ye : List ℚ) (c : BrailleCanvas), c.config = c0.config →
      ys.length = xs.length → xe.length = xs.length → ye.length = xs.length →
      ((xs.map fun q => rnd (c0.x_to_pixel q * (SUPERSAMPLE : ℚ))).zip
        ((ys.map fun q => rnd (c0.y_to_pixel q * (SUPERSAMPLE : ℚ))).zip
          ((xe.map fun q => rnd (c0.x_to_pixel q * (SUPERSAMPLE : ℚ))).zip
            (ye.map fun q => rnd (c0.y_to_pixel q * (SUPERSAMPLE : ℚ)))))).foldl
        (fun acc t => acc._draw_bresenham_segment t.1 t.2.1 t.2.2.1 t.2.2.2 color) c =
      c.line_calls xs ys xe ye color
  | [], _, _, _, c, _, _, _, _ => by
      rw [List.map_nil, List.zip_nil_left, List.foldl_nil]
      rfl
  | x :: xs, [], _, _, _, _, h2, _, _ => absurd h2 (by simp)
  | x :: xs, y :: ys, [], _, _, _, _, h3, _ => absurd h3 (by simp)
  | x :: xs, y :: ys, a :: xe, [], _, _, _, _, h4 => absurd h4 (by simp)
  | x :: xs, y :: ys, a :: xe, b :: ye, c, hcfg, h2, h3, h4 => by
      simp only [List.length_cons] at h2 h3 h4
      rw [List.map_cons, List.map_cons, List.map_cons, List.map_cons,
        List.zip_cons_cons, List.zip_cons_cons, List.zip_cons_cons,
        List.foldl_cons]
      have hline : c._draw_bresenham_segment
          (rnd (c0.x_to_pixel x * (SUPERSAMPLE : ℚ)))
          (rnd (c0.y_to_pixel y * (SUPERSAMPLE : ℚ)))
          (rnd (c0.x_to_pixel a * (SUPERSAMPLE : ℚ)))
          (rnd (c0.y_to_pixel b * (SUPERSAMPLE : ℚ))) color =
          c.line x y a b color := by
        unfold BrailleCanvas.line
        rw [x_to_pixel_congr hcfg, y_to_pixel_congr hcfg,
          x_to_pixel_congr hcfg, y_to_pixel_congr hcfg]
      rw [hline]
      have hcfg' : (c.line x y a b color).config = c0.config := by
        rw [line_config, hcfg]
      rw [mapped_zip4_fold_eq_line_calls color c0 xs ys xe ye _ hcfg'
        (by omega) (by omega) (by omega)]
      rfl

theorem vec_line_eq_line_calls (c : BrailleCanvas) (xs ys xe ye : List ℚ)
    (color : ℕ) (h2 : ys.length = xs.length) (h3 : xe.length = xs.length)
    (h4 : ye.length = xs.length) :
    c.vec_line xs ys xe ye color = c.line_calls xs ys xe ye color := by
  show (List.range xs.length).foldl
      (fun acc i => acc._draw_bresenham_segment
        ((DataOps.astype_intArr (DataOps.roundArr
          ((xs.map c.x_to_pixel).map (· * (SUPERSAMPLE : ℚ))))).getD i 0)
        ((DataOps.astype_intArr (DataOps.roundArr
          ((ys.map c.y_to_pixel).map (· * (SUPERSAMPLE : ℚ))))).getD i 0)
        ((DataOps.astype_intArr (DataOps.roundArr
          ((xe.map c.x_to_pixel).map (· * (SUPERSAMPLE : ℚ))))).getD i 0)
        ((DataOps.astype_intArr (DataOps.roundArr
          ((ye.map c.y_to_pixel).map (· * (SUPERSAMPLE : ℚ))))).getD i 0)
        color) c
    = c.line_calls xs ys xe ye color
  rw [astype_round, astype_round, astype_round, astype_round]
  simp only [List.map_map]
  have hxs : xs.length =
      (xs.map (rnd ∘ (fun x => x * (SUPERSAMPLE : ℚ)) ∘ c.x_to_pixel)).length := by
    simp
  rw [hxs, rangeFold_draw_eq color _ _ _ _ c (by simp [h2]) (by simp [h3])
    (by simp [h4])]
  exact mapped_zip4_fold_eq_line_calls color c xs ys xe ye c rfl h2 h3 h4

theorem zip4_fold_eq_line_calls (color : ℕ) :
    ∀ (xs ys xe ye : List ℚ) (c : BrailleCanvas),
      ys.length = xs.length → xe.length = xs.length → ye.length = xs.length →
      (xs.zip (ys.zip (xe.zip ye))).foldl
        (fun acc t => acc.line t.1 t.2.1 t.2.2.1 t.2.2.2 color) c =
      c.line_calls xs ys xe ye color
  | [], _, _, _, _, _, _, _ => by
      rw [List.zip_nil_left, List.foldl_nil]
      rfl
  | x :: xs, [], _, _, _, h2, _, _ => absurd h2 (by simp)
  | x :: xs, y :: ys, [], _, _, _, h3, _ => absurd h3 (by simp)
  | x :: xs, y :: ys, a :: xe, [], _, _, _, h4 => absurd h4 (by simp)
  | x :: xs, y :: ys, a :: xe, b :: ye, c, h2, h3, h4 => by
      simp only [List.length_cons] at h2 h3 h4
      rw [List.zip_cons_cons, List.zip_cons_cons, List.zip_cons_cons,
        List.foldl_cons]
      rw [zip4_fold_eq_line_calls color xs ys xe ye _ (by omega) (by omega)
        (by omega)]
      rfl

/-! ## Helpers for concrete evaluation and the degenerate walk -/

/-- Let-free unfolding of `line`. -/
theorem line_eq (c : BrailleCanvas) (x1 y1 x2 y2 : ℚ) (color : ℕ) :
    c.line x1 y1 x2 y2 color =
    c._draw_bresenham_segment
      (rnd (c.x_to_pixel x1 * (SUPERSAMPLE : ℚ)))
      (rnd (c.y_to_pixel y1 * (SUPERSAMPLE : ℚ)))
      (rnd (c.x_to_pixel x2 * (SUPERSAMPLE : ℚ)))
      (rnd (c.y_to_pixel y2 * (SUPERSAMPLE : ℚ))) color := rfl

theorem setInsert_nil (p : ℤ × ℤ) : setInsert p [] = [p] := by
  unfold setInsert
  rw [if_neg (List.not_mem_nil p)]
  rfl

/-- A degenerate walk (equal endpoints) visits exactly the one collapsed
pixel of its endpoint. -/
theorem bresPixels_degenerate (a b : ℤ) :
    bresPixels a b a b = some [(a / SUPERSAMPLE, b / SUPERSAMPLE)] := by
  unfold bresPixels
  simp only [sub_self, abs_zero]
  show bresLoop 0 0 (if a < a then 1 else -1) (if b < b then 1 else -1) a b
    (0 + 1) a b (0 - 0) [] = some [(a / SUPERSAMPLE, b / SUPERSAMPLE)]
  rw [bresLoop_succ, if_pos ⟨rfl, rfl⟩, setInsert_nil]

theorem cellAt_init (cols rows : ℕ) (xs xo ys yo : ℚ) (r k : ℕ) :
    (BrailleCanvas.init cols rows xs xo ys yo).cellAt r k =
    if r < rows ∧ k < cols then default_char else 0 := by
  unfold BrailleCanvas.cellAt BrailleCanvas.init gridGet
  rw [getD_replicate]
  by_cases hr : r < rows
  · rw [if_pos hr, getD_replicate]
    by_cases hk : k < cols
    · rw [if_pos hk, if_pos ⟨hr, hk⟩]
    · rw [if_neg hk, if_neg (fun hc => hk hc.2)]
  · rw [if_neg hr]
    rw [if_neg (fun hc => hr hc.1)]
    rfl

theorem init_x_pixel (cols rows : ℕ) (a : ℤ) :
    rnd ((BrailleCanvas.init cols rows 1 0 1 0).x_to_pixel ((a : ℤ) : ℚ) *
      (SUPERSAMPLE : ℚ)) = 8 * a := by
  have h : (BrailleCanvas.init cols rows 1 0 1 0).x_to_pixel ((a : ℤ) : ℚ) *
      (SUPERSAMPLE : ℚ) = ((8 * a : ℤ) : ℚ) := by
    unfold BrailleCanvas.x_to_pixel BrailleCanvas.init SUPERSAMPLE
    push_cast
    ring
  rw [h, rnd_intCast]

theorem init_y_pixel (cols rows : ℕ) (b : ℤ) :
    rnd ((BrailleCanvas.init cols rows 1 0 1 0).y_to_pixel ((b : ℤ) : ℚ) *
      (SUPERSAMPLE : ℚ)) = 8 * b := by
  have h : (BrailleCanvas.init cols rows 1 0 1 0).y_to_pixel ((b : ℤ) : ℚ) *
      (SUPERSAMPLE : ℚ) = ((8 * b : ℤ) : ℚ) := by
    unfold BrailleCanvas.y_to_pixel BrailleCanvas.init SUPERSAMPLE
    push_cast
    ring
  rw [h, rnd_intCast]

/-- On the identity transform, `line` at integer coordinates reduces to the
integer Bresenham draw at 8 times the coordinates. -/
theorem line_intCast (cols rows : ℕ) (a b d e : ℤ) (color : ℕ) :
    (BrailleCanvas.init cols rows 1 0 1 0).line
      ((a : ℤ) : ℚ) ((b : ℤ) : ℚ) ((d : ℤ) : ℚ) ((e : ℤ) : ℚ) color =
    (BrailleCanvas.init cols rows 1 0 1 0)._draw_bresenham_segment
      (8 * a) (8 * b) (8 * d) (8 * e) color := by
  rw [line_eq, init_x_pixel, init_y_pixel, init_x_pixel, init_y_pixel]

/-! ## The claims -/

/-- Claim C1: for every collection of N segments with identical numeric
coordinates and a color, `lines` (on either dispatch path: the vectorized
`vec_line` path or the scalar per-tuple path) produces exactly the canvas of
N sequential `line` calls in input order — hence identical cell masks, cell
colors, and `render` output.  The flag `isArr` embeds the ndarray dispatch
test of `lines`. -/
theorem claim_C1 (c : BrailleCanvas) (isArr : Bool) (xs ys xe ye : List ℚ)
    (color : ℕ) (h2 : ys.length = xs.length) (h3 : xe.length = xs.length)
    (h4 : ye.length = xs.length) :
    c.lines isArr xs ys xe ye color =
      Except.ok (c.line_calls xs ys xe ye color) := by
  rw [lines_eq, if_neg (not_not_intro ⟨h2, h3, h4⟩)]
  cases isArr
  · rw [if_neg (by simp)]
    rw [zip4_fold_eq_line_calls color xs ys xe ye c h2 h3 h4]
  · rw [if_pos rfl, vec_line_eq_line_calls c xs ys xe ye color h2 h3 h4]

theorem claim_C1_witness :
    ([(0 : ℚ), 1].length = [(0 : ℚ), 1].length ∧
      [(2 : ℚ), 1].length = [(0 : ℚ), 1].length ∧
      [(4 : ℚ), 2].length = [(0 : ℚ), 1].length) ∧
    (BrailleCanvas.init 2 2 1 0 1 0).lines true [0, 1] [0, 1] [2, 1] [4, 2] 7 =
      Except.ok ((BrailleCanvas.init 2 2 1 0 1 0).line_calls
        [0, 1] [0, 1] [2, 1] [4, 2] 7) :=
  ⟨⟨rfl, rfl, rfl⟩,
    claim_C1 (BrailleCanvas.init 2 2 1 0 1 0) true [0, 1] [0, 1] [2, 1] [4, 2] 7
      rfl rfl rfl⟩

/-- Claim C3: `_set_pixel` at a pixel coordinate outside
`[0, grid_cols * x_pixel_per_char) × [0, grid_rows * y_pixel_per_char)` is a
silent no-op: it raises nothing (the embedding is total, with no error case)
and returns the canvas with both the cell grid and the color grid exactly
unchanged. -/
theorem claim_C3 (c : BrailleCanvas) (px py : ℤ) (color : ℕ)
    (h : ¬(0 ≤ px ∧ px < (c.grid_cols : ℤ) * x_pixel_per_char ∧
          0 ≤ py ∧ py < (c.grid_rows : ℤ) * y_pixel_per_char)) :
    c._set_pixel px py color = c := by
  rw [_set_pixel_eq]
  have hx : x_pixel_per_char = 2 := rfl
  have hy : y_pixel_per_char = 4 := rfl
  rw [hx, hy] at h ⊢
  have hcond : ¬(0 ≤ px / 2 ∧ px / 2 < (c.grid_cols : ℤ) ∧
      0 ≤ py / 4 ∧ py / 4 < (c.grid_rows : ℤ)) := by
    intro ⟨h1, h2, h3, h4⟩
    exact h ⟨by omega, by omega, by omega, by omega⟩
  rw [if_neg hcond]

theorem claim_C3_witness :
    ¬(0 ≤ (-1 : ℤ) ∧
        (-1 : ℤ) < ((BrailleCanvas.init 1 1 1 0 1 0).grid_cols : ℤ) * x_pixel_per_char ∧
        0 ≤ (0 : ℤ) ∧
        (0 : ℤ) < ((BrailleCanvas.init 1 1 1 0 1 0).grid_rows : ℤ) * y_pixel_per_char) ∧
    (BrailleCanvas.init 1 1 1 0 1 0)._set_pixel (-1) 0 7 =
      BrailleCanvas.init 1 1 1 0 1 0 :=
  ⟨by decide, claim_C3 (BrailleCanvas.init 1 1 1 0 1 0) (-1) 0 7 (by decide)⟩

/-- Claim C5: `lines` with four sequences that do not all share one length
fails immediately with the length-mismatch `ValueError` (embedded as
`Except.error` with the message of the `raise`, quotes omitted); no canvas
state is produced or mutated — the error carries no canvas, and the input
canvas is untouched by construction of the embedding. -/
theorem claim_C5 (c : BrailleCanvas) (isArr : Bool) (xs ys xe ye : List ℚ)
    (color : ℕ)
    (h : ¬(ys.length = xs.length ∧ xe.length = xs.length ∧
          ye.length = xs.length)) :
    c.lines isArr xs ys xe ye color =
      Except.error "Input sequences for lines must all have the same length" := by
  rw [lines_eq, if_pos h]

theorem claim_C5_witness :
    ¬([(0 : ℚ)].length = [(0 : ℚ), 1].length ∧
      [(0 : ℚ)].length = [(0 : ℚ), 1].length ∧
      [(0 : ℚ)].length = [(0 : ℚ), 1].length) ∧
    (BrailleCanvas.init 2 2 1 0 1 0).lines false [0, 1] [0] [0] [0] 7 =
      Except.error "Input sequences for lines must all have the same length" :=
  ⟨by decide,
    claim_C5 (BrailleCanvas.init 2 2 1 0 1 0) false [0, 1] [0] [0] [0] 7 (by decide)⟩

/-- Claim C7: for every integer pixel coordinate, the in-cell offsets
`px % x_pixel_per_char` and `py % y_pixel_per_char` lie inside the domain of
the fixed 2×4 bit table, so `bitAt` always returns `some` — the defensive
`except IndexError` branch of `_set_pixel` (the `none` case) is unreachable
and the lookup never propagates a crash. -/
theorem claim_C7 (px py : ℤ) :
    (bitAt (px % x_pixel_per_char) (py % y_pixel_per_char)).isSome = true := by
  have hx : px % x_pixel_per_char = 0 ∨ px % x_pixel_per_char = 1 := by
    have h : x_pixel_per_char = 2 := rfl
    rw [h]
    omega
  have hy : py % y_pixel_per_char = 0 ∨ py % y_pixel_per_char = 1 ∨
      py % y_pixel_per_char = 2 ∨ py % y_pixel_per_char = 3 := by
    have h : y_pixel_per_char = 4 := rfl
    rw [h]
    omega
  rcases hx with h1 | h1 <;> rcases hy with h2 | h2 | h2 | h2 <;>
    rw [h1, h2] <;> decide

/-- Claim C9 (corrected): the empty-length check of `DataOps.min`/`max` comes
first and catches EVERY empty argument — including empty non-numeric ones such
as the empty string — with a `ValueError` (domain error), so the claim that
every non-numeric-sequence input fails with a type error is false at the
empty string. -/
theorem claim_C9_cex :
    DataOps.min (PyData.str []) =
      Except.error (PyErr.valueError "min() arg is an empty sequence") ∧
    DataOps.max (PyData.str []) =
      Except.error (PyErr.valueError "max() arg is an empty sequence") ∧
    (∀ msg, DataOps.min (PyData.str []) ≠
      Except.error (PyErr.typeError msg)) := by
  refine ⟨rfl, rfl, fun msg h => ?_⟩
  exact PyErr.noConfusion (Except.error.inj h)

/-- Claim C9 (amended): `DataOps.min` and `DataOps.max` fail with a domain
error (`ValueError`) for every empty argument, and fail with a type error for
every nonempty input that is neither a numeric array nor a numeric plain
sequence; both failures are raised (`Except.error`), not recovered. -/
theorem claim_C9 :
    (∀ d : PyData, pyLen d = 0 →
      DataOps.min d = Except.error (PyErr.valueError "min() arg is an empty sequence") ∧
      DataOps.max d = Except.error (PyErr.valueError "max() arg is an empty sequence")) ∧
    (∀ s : List Char, s.length ≠ 0 →
      DataOps.min (PyData.str s) =
        Except.error (PyErr.typeError "Unsupported data type for DataOps.get_min") ∧
      DataOps.max (PyData.str s) =
        Except.error (PyErr.typeError "Unsupported data type for DataOps.get_min")) := by
  constructor
  · intro d h
    constructor
    · unfold DataOps.min
      rw [if_pos h]
    · unfold DataOps.max
      rw [if_pos h]
  · intro s h
    constructor
    · unfold DataOps.min
      rw [if_neg (by simpa [pyLen] using h)]
    · unfold DataOps.max
      rw [if_neg (by simpa [pyLen] using h)]

theorem claim_C9_witness :
    (pyLen (PyData.seq []) = 0 ∧
      DataOps.min (PyData.seq []) =
        Except.error (PyErr.valueError "min() arg is an empty sequence")) ∧
    (([Char.ofNat 97].length ≠ 0) ∧
      DataOps.min (PyData.str [Char.ofNat 97]) =
        Except.error (PyErr.typeError "Unsupported data type for DataOps.get_min")) :=
  ⟨⟨rfl, (claim_C9.1 (PyData.seq []) rfl).1⟩,
    ⟨by decide, (claim_C9.2 [Char.ofNat 97] (by decide)).1⟩⟩

/-- Claim C10: the Bresenham walk always reaches its end point within the
`dx + dy + 1` fuel bound (the supersampled walk length), so the `while True`
loop of `_draw_bresenham_segment` terminates and the draw is exactly the
finite fold of `_set_pixel` over the computed pixel set; `line`, `lines` and
`render` are total functions of their input. -/
theorem claim_C10 (px1 py1 px2 py2 : ℤ) (c : BrailleCanvas) (color : ℕ) :
    ∃ L, bresPixels px1 py1 px2 py2 = some L ∧
      c._draw_bresenham_segment px1 py1 px2 py2 color =
        L.foldl (fun acc p => acc._set_pixel p.1 p.2 color) c := by
  obtain ⟨L, hL⟩ := bresPixels_some px1 py1 px2 py2
  refine ⟨L, hL, ?_⟩
  unfold BrailleCanvas._draw_bresenham_segment
  rw [hL]

/-- Claim C4: cell masks grow monotonically — every mask bit set before a
`_set_pixel`, `line` or (successful) `lines` call is still set after it —
and the masks after a sequence of `_set_pixel` calls do not depend on the
order of the calls: permuting the call list leaves every cell's mask, and
hence every cell's glyph (`chr` of the cell), unchanged (only colors are
order-sensitive). -/
theorem claim_C4 :
    (∀ (c : BrailleCanvas) (px py : ℤ) (color r k i : ℕ),
      (c.cellAt r k).testBit i = true →
      ((c._set_pixel px py color).cellAt r k).testBit i = true) ∧
    (∀ (c : BrailleCanvas) (x1 y1 x2 y2 : ℚ) (color r k i : ℕ),
      (c.cellAt r k).testBit i = true →
      ((c.line x1 y1 x2 y2 color).cellAt r k).testBit i = true) ∧
    (∀ (c : BrailleCanvas) (isArr : Bool) (xs ys xe ye : List ℚ)
      (color : ℕ) (c' : BrailleCanvas),
      c.lines isArr xs ys xe ye color = Except.ok c' →
      ∀ r k i, (c.cellAt r k).testBit i = true →
        (c'.cellAt r k).testBit i = true) ∧
    (∀ (l1 l2 : List (ℤ × ℤ × ℕ)), l1.Perm l2 → ∀ c : BrailleCanvas,
      (applyCalls l1 c).active_cells = (applyCalls l2 c).active_cells) ∧
    (∀ (l1 l2 : List (ℤ × ℤ × ℕ)), l1.Perm l2 →
      ∀ (c : BrailleCanvas) (r k : ℕ),
      Char.ofNat ((applyCalls l1 c).cellAt r k) =
        Char.ofNat ((applyCalls l2 c).cellAt r k)) :=
  ⟨fun c px py color r k i h => _set_pixel_testBit_mono c px py color r k i h,
   fun c x1 y1 x2 y2 color r k i h =>
     line_testBit_mono c x1 y1 x2 y2 color r k i h,
   fun c isArr xs ys xe ye color c' hok r k i h =>
     lines_testBit_mono c isArr xs ys xe ye color c' hok r k i h,
   fun _ _ hp c => applyCalls_perm hp c,
   fun _ _ hp c r k => by
     unfold BrailleCanvas.cellAt
     rw [applyCalls_perm hp c]⟩

theorem claim_C4_witness :
    (((BrailleCanvas.init 1 1 1 0 1 0).cellAt 0 0).testBit 11 = true ∧
      (((BrailleCanvas.init 1 1 1 0 1 0)._set_pixel 0 0 7).cellAt 0 0).testBit 11
        = true) ∧
    ((((BrailleCanvas.init 1 1 1 0 1 0).line 0 0 0 0 7).cellAt 0 0).testBit 11
      = true) ∧
    ([((0 : ℤ), (0 : ℤ), (1 : ℕ)), (9, 9, 2)].Perm [((9 : ℤ), (9 : ℤ), (2 : ℕ)), (0, 0, 1)] ∧
      (applyCalls [((0 : ℤ), (0 : ℤ), (1 : ℕ)), (9, 9, 2)]
          (BrailleCanvas.init 1 1 1 0 1 0)).active_cells =
        (applyCalls [((9 : ℤ), (9 : ℤ), (2 : ℕ)), (0, 0, 1)]
          (BrailleCanvas.init 1 1 1 0 1 0)).active_cells ∧
      Char.ofNat ((applyCalls [((0 : ℤ), (0 : ℤ), (1 : ℕ)), (9, 9, 2)]
          (BrailleCanvas.init 1 1 1 0 1 0)).cellAt 0 0) =
        Char.ofNat ((applyCalls [((9 : ℤ), (9 : ℤ), (2 : ℕ)), (0, 0, 1)]
          (BrailleCanvas.init 1 1 1 0 1 0)).cellAt 0 0)) :=
  ⟨⟨by decide,
    claim_C4.1 (BrailleCanvas.init 1 1 1 0 1 0) 0 0 7 0 0 11 (by decide)⟩,
   claim_C4.2.1 (BrailleCanvas.init 1 1 1 0 1 0) 0 0 0 0 7 0 0 11 (by decide),
   ⟨by decide,
    claim_C4.2.2.2.1 _ _ (by decide) (BrailleCanvas.init 1 1 1 0 1 0),
    claim_C4.2.2.2.2 _ _ (by decide) (BrailleCanvas.init 1 1 1 0 1 0) 0 0⟩⟩

/-- Claim C6: on any canvas satisfying the cell-grid invariant (every cell is
the blank base plus its eight mask bits), `render` is exactly the composition
the spec describes — per cell, the color capability applied to the single
character at code point `0x2800` plus the cell's mask bits, columns joined
with no separator, rows joined by one newline — and `render` is pure: the
canvas is untouched (the embedding is functional) and repeated calls return
the identical string. -/
theorem claim_C6 (capApply : ℕ → String → String) (c : BrailleCanvas)
    (h : c.maskInv) :
    c.render capApply = c.spec_render capApply ∧
    c.render capApply = c.render capApply := by
  refine ⟨?_, rfl⟩
  unfold BrailleCanvas.render BrailleCanvas.spec_render
  congr 1
  apply List.map_congr_left
  intro row hrow
  congr 1
  apply List.map_congr_left
  intro col hcol
  obtain ⟨hlo, hhi⟩ := h row (List.mem_range.mp hrow) col (List.mem_range.mp hcol)
  have hmask : 0x2800 + c.cellAt row col % 256 = c.cellAt row col := by omega
  rw [hmask]

theorem claim_C6_witness :
    ((BrailleCanvas.init 2 2 1 0 1 0)._draw_bresenham_segment 0 0 16 32 7).maskInv ∧
    ((BrailleCanvas.init 2 2 1 0 1 0)._draw_bresenham_segment 0 0 16 32 7).render
        (fun _ s => s) =
      ((BrailleCanvas.init 2 2 1 0 1 0)._draw_bresenham_segment 0 0 16 32 7).spec_render
        (fun _ s => s) :=
  ⟨by decide,
    (claim_C6 (fun _ s => s)
      ((BrailleCanvas.init 2 2 1 0 1 0)._draw_bresenham_segment 0 0 16 32 7)
      (by decide)).1⟩

/-- Claim C2 (counterexample): drawing the segment from (0,0) to (2,4) on a
blank 2×2 canvas with the identity transform leaves cell (row 0, col 1)
blank, but drawing the reversed segment from (2,4) to (0,0) on the same blank
canvas marks it: the two directions do NOT touch the same set of cells. -/
theorem claim_C2_cex :
    ((BrailleCanvas.init 2 2 1 0 1 0).line
        ((0 : ℤ) : ℚ) ((0 : ℤ) : ℚ) ((2 : ℤ) : ℚ) ((4 : ℤ) : ℚ) 7).cellAt 0 1 =
      default_char ∧
    ((BrailleCanvas.init 2 2 1 0 1 0).line
        ((2 : ℤ) : ℚ) ((4 : ℤ) : ℚ) ((0 : ℤ) : ℚ) ((0 : ℤ) : ℚ) 7).cellAt 0 1 ≠
      default_char := by
  constructor
  · rw [line_intCast]
    decide
  · rw [line_intCast]
    decide

/-- Claim C2 (amended): drawing a line from A to B and from B to A marks the
same set of cells whenever the segment is axis-aligned in pixel space (the
two endpoints round to the same supersampled x coordinate, or to the same
supersampled y coordinate — in particular for all vertical, horizontal and
degenerate segments); for general diagonal segments the two directions may
mark different cell sets (see the counterexample). -/
theorem claim_C2 (c : BrailleCanvas) (x1 y1 x2 y2 : ℚ) (color : ℕ)
    (h : rnd (c.x_to_pixel x1 * (SUPERSAMPLE : ℚ)) =
          rnd (c.x_to_pixel x2 * (SUPERSAMPLE : ℚ)) ∨
        rnd (c.y_to_pixel y1 * (SUPERSAMPLE : ℚ)) =
          rnd (c.y_to_pixel y2 * (SUPERSAMPLE : ℚ))) :
    (c.line x1 y1 x2 y2 color).active_cells =
    (c.line x2 y2 x1 y1 color).active_cells := by
  rw [line_eq, line_eq]
  rcases h with h | h
  · rw [h]
    exact _draw_axis_symm c _ _ _ _ color (Or.inl rfl)
  · rw [h]
    exact _draw_axis_symm c _ _ _ _ color (Or.inr rfl)

theorem claim_C2_witness :
    (rnd ((BrailleCanvas.init 1 1 1 0 1 0).x_to_pixel ((0 : ℤ) : ℚ) *
        (SUPERSAMPLE : ℚ)) =
      rnd ((BrailleCanvas.init 1 1 1 0 1 0).x_to_pixel ((0 : ℤ) : ℚ) *
        (SUPERSAMPLE : ℚ)) ∨
      rnd ((BrailleCanvas.init 1 1 1 0 1 0).y_to_pixel ((0 : ℤ) : ℚ) *
        (SUPERSAMPLE : ℚ)) =
      rnd ((BrailleCanvas.init 1 1 1 0 1 0).y_to_pixel ((1 : ℤ) : ℚ) *
        (SUPERSAMPLE : ℚ))) ∧
    ((BrailleCanvas.init 1 1 1 0 1 0).line ((0 : ℤ) : ℚ) ((0 : ℤ) : ℚ)
        ((0 : ℤ) : ℚ) ((1 : ℤ) : ℚ) 7).active_cells =
      ((BrailleCanvas.init 1 1 1 0 1 0).line ((0 : ℤ) : ℚ) ((1 : ℤ) : ℚ)
        ((0 : ℤ) : ℚ) ((0 : ℤ) : ℚ) 7).active_cells :=
  ⟨Or.inl rfl,
    claim_C2 (BrailleCanvas.init 1 1 1 0 1 0)
      ((0 : ℤ) : ℚ) ((0 : ℤ) : ℚ) ((0 : ℤ) : ℚ) ((1 : ℤ) : ℚ) 7 (Or.inl rfl)⟩

theorem gridGet_blank (cols rows r k : ℕ) (hr : r < rows) (hk : k < cols) :
    gridGet (List.replicate rows (List.replicate cols default_char)) r k =
      default_char := by
  unfold gridGet
  rw [getD_replicate, if_pos hr, getD_replicate, if_pos hk]

theorem lor_blank (m : ℕ) (h : m < 256) :
    default_char ||| m = default_char + m := by
  have H : ∀ m : Fin 256, (10240 ||| (m : ℕ)) = 10240 + (m : ℕ) := by decide
  exact H ⟨m, h⟩

/-- `_set_pixel` at an in-bounds pixel with a successful table lookup is
exactly the one-cell update. -/
theorem _set_pixel_in_bounds (c : BrailleCanvas) (px py : ℤ) (color bit : ℕ)
    (hb : bitAt (px % x_pixel_per_char) (py % y_pixel_per_char) = some bit)
    (h : 0 ≤ px / x_pixel_per_char ∧ px / x_pixel_per_char < (c.grid_cols : ℤ) ∧
        0 ≤ py / y_pixel_per_char ∧ py / y_pixel_per_char < (c.grid_rows : ℤ)) :
    c._set_pixel px py color =
    { c with
      active_cells := gridModify c.active_cells (py / y_pixel_per_char).toNat
        (px / x_pixel_per_char).toNat (· ||| bit)
      active_colors := gridModify c.active_colors (py / y_pixel_per_char).toNat
        (px / x_pixel_per_char).toNat (fun _ => color) } := by
  rw [_set_pixel_eq, if_pos h, hb]

/-- The bit looked up for any pixel offset is one of the eight table entries:
nonzero and below 256. -/
theorem bitAt_exists (px py : ℤ) :
    ∃ bit, bitAt (px % x_pixel_per_char) (py % y_pixel_per_char) = some bit ∧
      0 < bit ∧ bit < 256 := by
  have hmx : px % x_pixel_per_char = 0 ∨ px % x_pixel_per_char = 1 := by
    have hx : x_pixel_per_char = 2 := rfl
    rw [hx]
    omega
  have hmy : py % y_pixel_per_char = 0 ∨ py % y_pixel_per_char = 1 ∨
      py % y_pixel_per_char = 2 ∨ py % y_pixel_per_char = 3 := by
    have hy : y_pixel_per_char = 4 := rfl
    rw [hy]
    omega
  rcases hmx with hm1 | hm1 <;> rcases hmy with hm2 | hm2 | hm2 | hm2 <;>
    rw [hm1, hm2] <;> exact ⟨_, rfl, by decide, by decide⟩

/-- `_set_pixel` at an in-bounds pixel on the blank canvas marks exactly the
cell containing the pixel, leaving every other cell blank. -/
theorem _set_pixel_init (cols rows : ℕ) (xsc xo ysc yo : ℚ) (px py : ℤ)
    (color : ℕ)
    (h1 : 0 ≤ px / x_pixel_per_char) (h2 : px / x_pixel_per_char < (cols : ℤ))
    (h3 : 0 ≤ py / y_pixel_per_char) (h4 : py / y_pixel_per_char < (rows : ℤ)) :
    ((BrailleCanvas.init cols rows xsc xo ysc yo)._set_pixel px py color).cellAt
        (py / y_pixel_per_char).toNat (px / x_pixel_per_char).toNat ≠
      default_char ∧
    (∀ r, r < rows → ∀ k, k < cols →
      ¬(r = (py / y_pixel_per_char).toNat ∧ k = (px / x_pixel_per_char).toNat) →
      ((BrailleCanvas.init cols rows xsc xo ysc yo)._set_pixel px py color).cellAt
        r k = default_char) := by
  have hrow : (py / y_pixel_per_char).toNat < rows := by
    have hy : y_pixel_per_char = 4 := rfl
    rw [hy] at h3 h4 ⊢
    omega
  have hcol : (px / x_pixel_per_char).toNat < cols := by
    have hx : x_pixel_per_char = 2 := rfl
    rw [hx] at h1 h2 ⊢
    omega
  obtain ⟨bit, hb, hb0, hb256⟩ := bitAt_exists px py
  rw [_set_pixel_in_bounds _ px py color bit hb ⟨h1, h2, h3, h4⟩]
  have hcells : (BrailleCanvas.init cols rows xsc xo ysc yo).active_cells =
      List.replicate rows (List.replicate cols default_char) := rfl
  constructor
  · show gridGet (gridModify (BrailleCanvas.init cols rows xsc xo ysc yo).active_cells
        (py / y_pixel_per_char).toNat (px / x_pixel_per_char).toNat (· ||| bit))
        (py / y_pixel_per_char).toNat (px / x_pixel_per_char).toNat ≠ default_char
    rw [hcells]
    rw [gridGet_gridModify_self _ _ _ _
      (by rw [List.length_replicate]; exact hrow)
      (by rw [getD_replicate, if_pos hrow, List.length_replicate]; exact hcol)]
    rw [gridGet_blank cols rows _ _ hrow hcol, lor_blank bit hb256]
    omega
  · intro r hr k hk hne
    show gridGet (gridModify (BrailleCanvas.init cols rows xsc xo ysc yo).active_cells
        (py / y_pixel_per_char).toNat (px / x_pixel_per_char).toNat (· ||| bit))
        r k = default_char
    rw [hcells]
    rw [gridGet_gridModify_ne _ _ _ _ _ _ (by omega)]
    exact gridGet_blank cols rows r k hr hk

/-- Claim C8 (counterexample): the degenerate call `line(-1, 0, -1, 0, color)`
on a blank 1×1 canvas with the identity transform maps to a pixel left of the
grid, is clipped, and sets NO cell at all — not exactly one: the canvas is
unchanged and its only cell still blank. -/
theorem claim_C8_cex :
    ((BrailleCanvas.init 1 1 1 0 1 0).line
        ((-1 : ℤ) : ℚ) ((0 : ℤ) : ℚ) ((-1 : ℤ) : ℚ) ((0 : ℤ) : ℚ) 7).active_cells =
      (BrailleCanvas.init 1 1 1 0 1 0).active_cells ∧
    (BrailleCanvas.init 1 1 1 0 1 0).cellAt 0 0 = default_char := by
  constructor
  · rw [line_intCast]
    decide
  · decide

/-- Claim C8 (amended): the degenerate call `line(x, y, x, y, color)` on a
previously blank canvas sets exactly one cell — the cell containing the
point's rounded supersampled pixel — and no others, PROVIDED that cell lies
inside the grid; a point mapping outside the grid is clipped and sets no cell
(see the counterexample). -/
theorem claim_C8 (cols rows : ℕ) (xsc xo ysc yo : ℚ) (x y : ℚ) (color : ℕ)
    (px py : ℤ)
    (hpx : px = rnd ((BrailleCanvas.init cols rows xsc xo ysc yo).x_to_pixel x *
      (SUPERSAMPLE : ℚ)))
    (hpy : py = rnd ((BrailleCanvas.init cols rows xsc xo ysc yo).y_to_pixel y *
      (SUPERSAMPLE : ℚ)))
    (h1 : 0 ≤ px / SUPERSAMPLE / x_pixel_per_char)
    (h2 : px / SUPERSAMPLE / x_pixel_per_char < (cols : ℤ))
    (h3 : 0 ≤ py / SUPERSAMPLE / y_pixel_per_char)
    (h4 : py / SUPERSAMPLE / y_pixel_per_char < (rows : ℤ)) :
    ((BrailleCanvas.init cols rows xsc xo ysc yo).line x y x y color).cellAt
        (py / SUPERSAMPLE / y_pixel_per_char).toNat
        (px / SUPERSAMPLE / x_pixel_per_char).toNat ≠ default_char ∧
    (∀ r, r < rows → ∀ k, k < cols →
      ¬(r = (py / SUPERSAMPLE / y_pixel_per_char).toNat ∧
        k = (px / SUPERSAMPLE / x_pixel_per_char).toNat) →
      ((BrailleCanvas.init cols rows xsc xo ysc yo).line x y x y color).cellAt
        r k = default_char) := by
  rw [line_eq, ← hpx, ← hpy]
  have hdraw : (BrailleCanvas.init cols rows xsc xo ysc yo)._draw_bresenham_segment
      px py px py color =
      (BrailleCanvas.init cols rows xsc xo ysc yo)._set_pixel
        (px / SUPERSAMPLE) (py / SUPERSAMPLE) color := by
    unfold BrailleCanvas._draw_bresenham_segment
    rw [bresPixels_degenerate]
    rfl
  rw [hdraw]
  exact _set_pixel_init cols rows xsc xo ysc yo (px / SUPERSAMPLE)
    (py / SUPERSAMPLE) color h1 h2 h3 h4

theorem claim_C8_witness :
    ((0 : ℤ) = rnd ((BrailleCanvas.init 1 1 1 0 1 0).x_to_pixel ((0 : ℤ) : ℚ) *
        (SUPERSAMPLE : ℚ)) ∧
      (0 : ℤ) = rnd ((BrailleCanvas.init 1 1 1 0 1 0).y_to_pixel ((0 : ℤ) : ℚ) *
        (SUPERSAMPLE : ℚ)) ∧
      0 ≤ (0 : ℤ) / SUPERSAMPLE / x_pixel_per_char ∧
      (0 : ℤ) / SUPERSAMPLE / x_pixel_per_char < ((1 : ℕ) : ℤ) ∧
      0 ≤ (0 : ℤ) / SUPERSAMPLE / y_pixel_per_char ∧
      (0 : ℤ) / SUPERSAMPLE / y_pixel_per_char < ((1 : ℕ) : ℤ)) ∧
    ((BrailleCanvas.init 1 1 1 0 1 0).line ((0 : ℤ) : ℚ) ((0 : ℤ) : ℚ)
        ((0 : ℤ) : ℚ) ((0 : ℤ) : ℚ) 7).cellAt
      ((0 : ℤ) / SUPERSAMPLE / y_pixel_per_char).toNat
      ((0 : ℤ) / SUPERSAMPLE / x_pixel_per_char).toNat ≠ default_char :=
  ⟨⟨by simp only [init_x_pixel]; decide, by simp only [init_y_pixel]; decide,
    by decide, by decide, by decide, by decide⟩,
   (claim_C8 1 1 1 0 1 0 ((0 : ℤ) : ℚ) ((0 : ℤ) : ℚ) 7 0 0
     (by simp only [init_x_pixel]; decide) (by simp only [init_y_pixel]; decide)
     (by decide) (by decide) (by decide) (by decide)).1⟩
